import Mathlib

/-!
Verification development for the ipyplotly repository.

The Python sources under `src/ipyplotly` and `src/codegen` are shallowly
embedded below.  Python JSON-like values (the contents of the figure's
synchronized trace/layout mirrors) are modelled by the inductive `JVal`;
Python dicts are ordered association lists (insertion order preserved,
keys unique, updates in place), Python lists are Lean lists, and the
traitlets `Undefined` sentinel is the `JVal.undefined` constructor.
Stateful methods of `BaseFigureWidget` become functions from a `Figure`
state to a new state; methods that can raise return `Except Err`.
Outbound one-shot comm messages (each write-then-clear of a `_py2js_*`
trait in the source) are recorded in an append-only `msgs` log.
-/

namespace IPyPlotly

/-- A path segment / dict key: Python property paths mix string keys and
integer indices (`_str_to_dict_path` in basedatatypes.py converts numeric
segments to `int`), and Python dicts may hold both kinds of key. -/
inductive Key where
  | str (s : String)
  | int (n : Int)
deriving DecidableEq, Repr

/-- JSON-like Python value as stored in the figure's `_data` / `_layout`
mirrors.  `undefined` is the traitlets `Undefined` sentinel, `null` is
Python `None`. -/
inductive JVal where
  | undefined
  | null
  | b (v : Bool)
  | i (v : Int)
  | s (v : String)
  | arr (xs : List JVal)
  | obj (fields : List (Key × JVal))
deriving Repr

namespace JVal

mutual

/-- Structural boolean equality on `JVal` (models Python `==` on the
JSON-like values exchanged with the front end; `BasePlotlyType._vals_equal`
is `v1 == v2` for non-ndarray values, basedatatypes.py:1578-1583). -/
def beq : JVal → JVal → Bool
  | .undefined, .undefined => true
  | .null, .null => true
  | .b x, .b y => x = y
  | .i x, .i y => x = y
  | .s x, .s y => x = y
  | .arr xs, .arr ys => beqList xs ys
  | .obj fs, .obj gs => beqFields fs gs
  | _, _ => false

/-- Elementwise equality of value lists. -/
def beqList : List JVal → List JVal → Bool
  | [], [] => true
  | x :: xs, y :: ys => beq x y && beqList xs ys
  | _, _ => false

/-- Elementwise equality of dict entry lists. -/
def beqFields : List (Key × JVal) → List (Key × JVal) → Bool
  | [], [] => true
  | (k, v) :: fs, (k', v') :: gs => k = k' && beq v v' && beqFields fs gs
  | _, _ => false

end

theorem beq_iff : ∀ a b : JVal, beq a b = true ↔ a = b := by
  apply beq.induct
    (motive_1 := fun a b => beq a b = true ↔ a = b)
    (motive_2 := fun fs gs => beqFields fs gs = true ↔ fs = gs)
    (motive_3 := fun xs ys => beqList xs ys = true ↔ xs = ys)
  case case1 => simp [beq]
  case case2 => simp [beq]
  case case3 => intro x y; simp [beq]
  case case4 => intro x y; simp [beq]
  case case5 => intro x y; simp [beq]
  case case6 => intro xs ys ih; simp [beq, ih]
  case case7 => intro fs gs ih; simp [beq, ih]
  case case8 =>
      intro t x h1 h2 h3 h4 h5 h6 h7
      rcases t <;> rcases x <;> simp_all [beq]
  case case9 => simp [beqList]
  case case10 => intro x xs y ys ih1 ih2; simp [beqList, ih1, ih2]
  case case11 =>
      intro t x h1 h2
      rcases t <;> rcases x <;> simp_all [beqList]
      exact fun _ _ => h2 _ _ _ _ rfl rfl rfl rfl
  case case12 => simp [beqFields]
  case case13 => intro k v fs k' v' gs ih1 ih2
                 simp [beqFields, ih1, ih2, and_assoc]
  case case14 =>
      intro t x h1 h2
      rcases t with _ | ⟨⟨k, v⟩, fs⟩ <;> rcases x with _ | ⟨⟨k', v'⟩, gs⟩ <;>
        simp_all [beqFields]
      exact fun _ _ _ => h2 _ _ _ _ _ _ rfl rfl rfl rfl rfl rfl

instance : DecidableEq JVal := fun a b =>
  decidable_of_iff (beq a b = true) (beq_iff a b)

instance instDecEqExcept {ε α : Type} [DecidableEq ε] [DecidableEq α] :
    DecidableEq (Except ε α) := fun a b =>
  match a, b with
  | .ok x, .ok y => decidable_of_iff (x = y) (by simp)
  | .error x, .error y => decidable_of_iff (x = y) (by simp)
  | .ok _, .error _ => .isFalse (by simp)
  | .error _, .ok _ => .isFalse (by simp)

/-- Python `isinstance(v, list)`. -/
def isArr : JVal → Bool
  | .arr _ => true
  | _ => false

/-- Python `isinstance(v, dict)`. -/
def isObj : JVal → Bool
  | .obj _ => true
  | _ => false

end JVal

/-- Dict lookup on an ordered association list (Python `d[k]` /
`d.get(k)`). -/
def dget (d : List (Key × JVal)) (k : Key) : Option JVal :=
  match d with
  | [] => none
  | (k', v) :: rest => if k' = k then some v else dget rest k

/-- Python `k in d` for a dict. -/
def dmem (d : List (Key × JVal)) (k : Key) : Bool :=
  (dget d k).isSome

/-- Python `d[k] = v`: replace in place if the key exists (insertion order
preserved), otherwise append. -/
def dset (d : List (Key × JVal)) (k : Key) (v : JVal) : List (Key × JVal) :=
  match d with
  | [] => [(k, v)]
  | (k', v') :: rest =>
      if k' = k then (k', v) :: rest else (k', v') :: dset rest k v

/-- Python `d.pop(k)`: remove the key (first occurrence; dicts have unique
keys). -/
def dpop (d : List (Key × JVal)) (k : Key) : List (Key × JVal) :=
  match d with
  | [] => []
  | (k', v') :: rest =>
      if k' = k then rest else (k', v') :: dpop rest k

/-- Python `old.update(new)` on dicts: each key of `new`, in order, is
written into `old` (overwriting existing keys, appending new ones). -/
def dupdate (old new : List (Key × JVal)) : List (Key × JVal) :=
  new.foldl (fun acc kv => dset acc kv.1 kv.2) old

/-- String-keyed dict lookup (restyle/relayout patch dicts have string
keys). -/
def sget (d : List (String × JVal)) (k : String) : Option JVal :=
  match d with
  | [] => none
  | (k', v) :: rest => if k' = k then some v else sget rest k

/-- String-keyed dict update/insert, Python semantics. -/
def sset (d : List (String × JVal)) (k : String) (v : JVal) :
    List (String × JVal) :=
  match d with
  | [] => [(k, v)]
  | (k', v') :: rest =>
      if k' = k then (k', v) :: rest else (k', v') :: sset rest k v

/-- Python list read `xs[i]` including negative indices; `none` models an
IndexError. -/
def pyGet (xs : List JVal) (i : Int) : Option JVal :=
  if 0 ≤ i then xs.get? i.toNat
  else if (-i) ≤ (xs.length : Int) then xs.get? (xs.length - (-i).toNat)
  else none

/-- Python list write `xs[i] = v` including negative indices; `none`
models an IndexError. -/
def pySet (xs : List JVal) (i : Int) (v : JVal) : Option (List JVal) :=
  if 0 ≤ i then
    if i.toNat < xs.length then some (xs.set i.toNat v) else none
  else if (-i) ≤ (xs.length : Int) then
    some (xs.set (xs.length - (-i).toNat) v)
  else none

/-- `while len(val_parent) <= key_path_el: val_parent.append(None)`
(basedatatypes.py:381-382): extend a list with `None` placeholders up to
index `n`.  For a negative `n` the condition is immediately false. -/
def extendTo (xs : List JVal) (n : Int) : List JVal :=
  if 0 ≤ n ∧ (xs.length : Int) ≤ n then
    xs ++ List.replicate (n.toNat + 1 - xs.length) JVal.null
  else xs

/-- First index of an element in a list (Python `list.index`); `none`
models the ValueError. -/
def pyIndexOf (xs : List String) (u : String) : Option Nat :=
  match xs with
  | [] => none
  | x :: rest =>
      if x = u then some 0 else (pyIndexOf rest u).map (· + 1)

/-- Worker for `nubFirst`: drop elements already `seen`. -/
def nubFirstAux {α : Type} [DecidableEq α] (seen : List α) :
    List α → List α
  | [] => []
  | x :: rest =>
      if x ∈ seen then nubFirstAux seen rest
      else x :: nubFirstAux (x :: seen) rest

/-- Keep the first occurrence of each element (used to model the contents
of a Python `set(...)`, whose iteration order the embedding fixes to
first-occurrence order). -/
def nubFirst {α : Type} [DecidableEq α] (l : List α) : List α :=
  nubFirstAux [] l

/-- Insertion into a sorted list, stable (used to model Python `sorted`). -/
def insertSorted {α : Type} (le : α → α → Bool) (x : α) :
    List α → List α
  | [] => [x]
  | y :: ys => if le x y then x :: y :: ys else y :: insertSorted le x ys

/-- Python `sorted`, modelled as a stable insertion sort. -/
def sortByLe {α : Type} (le : α → α → Bool) (l : List α) : List α :=
  l.foldr (insertSorted le) []

/-- Sequential evaluation of a fallible map (a Python list comprehension
whose element expression may raise). -/
def mapME {ε α β : Type} (f : α → Except ε β) : List α → Except ε (List β)
  | [] => .ok []
  | x :: xs => do
      let y ← f x
      let ys ← mapME f xs
      .ok (y :: ys)

/-- Sequential fallible left fold (a Python for-loop whose body may
raise). -/
def foldME {ε σ α : Type} (f : σ → α → Except ε σ) :
    σ → List α → Except ε σ
  | acc, [] => .ok acc
  | acc, x :: xs => do
      let acc' ← f acc x
      foldME f acc' xs

/-- Python `enumerate`, starting at `i`. -/
def pyEnumFrom {α : Type} (i : Nat) : List α → List (Nat × α)
  | [] => []
  | x :: xs => (i, x) :: pyEnumFrom (i + 1) xs

/-- Python `enumerate(l)`. -/
def pyEnum {α : Type} (l : List α) : List (Nat × α) := pyEnumFrom 0 l

/-! ### String primitives over character lists

The Python string operations the embedding needs, implemented over
`String.data` by structural recursion. -/

/-- Python `s.startswith(pre)`. -/
def strStartsWith (s pre : String) : Bool :=
  pre.data.isPrefixOf s.data

/-- Code-point-lexicographic string order (Python `str` comparison, used
by `sorted` on property names). -/
def charListLe : List Char → List Char → Bool
  | [], _ => true
  | _ :: _, [] => false
  | a :: as, b :: bs =>
      if a.toNat < b.toNat then true
      else if b.toNat < a.toNat then false
      else charListLe as bs

/-- Python `a <= b` on strings. -/
def strLe (a b : String) : Bool := charListLe a.data b.data

/-- Python `s.split(c)` for a one-character separator: worker carrying the
current (reversed) segment. -/
def splitOnCharAux (c : Char) (cur : List Char) :
    List Char → List (List Char)
  | [] => [cur.reverse]
  | x :: rest =>
      if x = c then cur.reverse :: splitOnCharAux c [] rest
      else splitOnCharAux c (x :: cur) rest

/-- The decimal value of a digit run (Python `int` on a digit string). -/
def digitsToNat (ds : List Char) : Nat :=
  ds.foldl (fun acc c => acc * 10 + (c.toNat - '0'.toNat)) 0

/-! ### `BaseFigureWidget._str_to_dict_path` (basedatatypes.py:1246-1273)

Splits a raw property key on periods, splits out a trailing bracket index
per segment (the regex `(.*)\[(\d+)\]` with a greedy first group picks the
last bracket group of the segment), and converts numeric segments to
integers.  The source's tuple passthrough branch applies to tuple inputs,
which the embedded callers never produce. -/

/-- Split a char list at the LAST occurrence of `c` (greedy `(.*)` of the
bracket regex): returns the part before and after that occurrence. -/
def splitLastChar (cs : List Char) (c : Char) :
    Option (List Char × List Char) :=
  match cs with
  | [] => none
  | x :: rest =>
      match splitLastChar rest c with
      | some (f, d) => some (x :: f, d)
      | none => if x = c then some ([], rest) else none

/-- `bracket_re.fullmatch` on one dot-separated segment: if the segment is
`<front>[<digits>]` with a nonempty digit run, return both groups,
otherwise the segment itself. -/
def bracketSplit (k : String) : List String :=
  match k.data.getLast? with
  | some ']' =>
      match splitLastChar k.data.dropLast '[' with
      | some (front, digits) =>
          if digits ≠ [] ∧ digits.all Char.isDigit then
            [String.mk front, String.mk digits]
          else [k]
      | none => [k]
  | _ => [k]

/-- Python `int(s)` on a path segment: optional sign followed by a
nonempty digit run (surrounding whitespace and digit-group underscores,
which Python also accepts, never occur in property keys). -/
def pyIntOfString? (s : String) : Option Int :=
  match s.data with
  | '-' :: ds =>
      if ds ≠ [] ∧ ds.all Char.isDigit then some (-(digitsToNat ds : Int))
      else none
  | '+' :: ds =>
      if ds ≠ [] ∧ ds.all Char.isDigit then some ((digitsToNat ds : Int))
      else none
  | ds =>
      if ds ≠ [] ∧ ds.all Char.isDigit then some ((digitsToNat ds : Int))
      else none

/-- `BaseFigureWidget._str_to_dict_path` for string keys. -/
def strToDictPath (rawKey : String) : List Key :=
  let parts :=
    ((splitOnCharAux '.' [] rawKey.data).map String.mk).map bracketSplit
  parts.flatten.map (fun p =>
    match pyIntOfString? p with
    | some n => Key.int n
    | none => Key.str p)

/-! ### Errors

One abstract constructor per distinct raise site reached by the embedded
code.  The spec's InvalidInput kind covers the ValueError/TypeError raise
sites; `indexError` / `typeError` / `zeroDivision` model the implicit
Python exceptions of the corresponding operations. -/

inductive Err where
  | keyNotFound (k : String)
  | invalidUids (uids : List String)
  | duplicateUids (uids : List String)
  | traceIndexOutOfRange (i : Int)
  | restyleObjects (k : String)
  | zeroDivision
  | indexError
  | typeError
  | subplotSuffix (prop : String)
  | invalidProps (props : List String)
  | batchAddTraces
  | attributeError (s : String)
  | unrecognizedChild
deriving DecidableEq, Repr

/-- Pythonic read of a single character of a string (`'abc'[1]` is a
one-character string), with negative indices. -/
def pyGetChar (s : String) (i : Int) : Option String :=
  let cs := s.toList
  if 0 ≤ i then (cs.get? i.toNat).map (fun c => String.mk [c])
  else if (-i) ≤ (cs.length : Int) then
    (cs.get? (cs.length - (-i).toNat)).map (fun c => String.mk [c])
  else none

/-! ### Restyle patch application
`BaseFigureWidget._perform_restyle_dict` (basedatatypes.py:348-414). -/

/-- The leaf assignment of the restyle patch walk
(basedatatypes.py:392-408): an Undefined patch value is a no-op, a None
value removes an existing dict key, any other value overwrites the dict
entry only when it differs from the stored value.  Returns the updated
container and whether a stored value changed. -/
def restyleApplyLeaf (parent : JVal) (lastKey : Key) (tv : JVal) :
    JVal × Bool :=
  if tv = .undefined then (parent, false)
  else if tv = .null then
    match parent with
    | .obj fs => if dmem fs lastKey then (.obj (dpop fs lastKey), true)
                 else (parent, false)
    | _ => (parent, false)
  else
    match parent with
    | .obj fs =>
        if ¬ dmem fs lastKey ∨ dget fs lastKey ≠ some tv then
          (.obj (dset fs lastKey tv), true)
        else (parent, false)
    | _ => (parent, false)

/-- One selected trace's walk for one restyle patch key
(basedatatypes.py:376-408): walk `key_path[:-1]` from the trace's property
dict, auto-vivifying intermediate containers (a list is extended with None
placeholders up to the required index; a missing dict key gets an empty
list or dict depending on whether the next segment is numeric), then apply
the leaf assignment with the cyclically selected value `v[i % len(v)]`.
Returns the updated root, the selected per-trace value (the caller appends
it to `restyle_msg_vs`), and the changed flag.  A `.s` parent mirrors
Python string indexing; since the leaf assignment only mutates dicts, a
walk that passes through a string can never change anything, so the parent
is returned unchanged. -/
def restyleNav (parent : JVal) : List Key → List JVal → Nat →
    Except Err (JVal × JVal × Bool)
  | [], _, _ => Except.error .indexError
  | [last], vs, i =>
      if h : vs.length = 0 then Except.error .zeroDivision
      else
        let tv := vs.get ⟨i % vs.length, Nat.mod_lt _ (Nat.pos_of_ne_zero h)⟩
        let res := restyleApplyLeaf parent last tv
        .ok (res.1, tv, res.2)
  | k :: rest, vs, i =>
      match parent, k with
      | .arr xs, .int n =>
          let xs' := extendTo xs n
          match pyGet xs' n with
          | none => Except.error .indexError
          | some child => do
              let (child', tv, ch) ← restyleNav child rest vs i
              match pySet xs' n child' with
              | none => Except.error .indexError
              | some xs'' => .ok (.arr xs'', tv, ch)
      | .arr _, .str _ => Except.error .typeError
      | .obj fs, _ =>
          let fs' :=
            if dmem fs k then fs
            else dset fs k (match rest with
                            | .int _ :: _ => .arr []
                            | _ => .obj [])
          match dget fs' k with
          | none => Except.error .indexError
          | some child => do
              let (child', tv, ch) ← restyleNav child rest vs i
              .ok (.obj (dset fs' k child'), tv, ch)
      | .s str, .int n =>
          match pyGetChar str n with
          | none => Except.error .indexError
          | some c => do
              let (_, tv, ch) ← restyleNav (.s c) rest vs i
              .ok (.s str, tv, ch)
      | _, _ => Except.error .typeError

/-- The per-key loop over the selected traces
(basedatatypes.py:371-408), carrying the position `i` within
`trace_indexes`, the accumulated `restyle_msg_vs` and `any_vals_changed`.
A selected index `>= len(self._data)` raises; a negative index is a
Python from-the-end index. -/
def restyleTraces (path : List Key) (vs : List JVal) :
    List JVal → List Int → Nat → List JVal → Bool →
    Except Err (List JVal × List JVal × Bool)
  | data, [], _, msgVs, changed => .ok (data, msgVs, changed)
  | data, ti :: rest, i, msgVs, changed =>
      if (data.length : Int) ≤ ti then Except.error (.traceIndexOutOfRange ti)
      else
        match pyGet data ti with
        | none => Except.error .indexError
        | some traceRoot => do
            let (root', tv, ch) ← restyleNav traceRoot path vs i
            match pySet data ti root' with
            | none => Except.error .indexError
            | some data' =>
                restyleTraces path vs data' rest (i + 1) (msgVs ++ [tv])
                  (changed || ch)

/-- One patch entry of `_perform_restyle_dict` (basedatatypes.py:355-412):
leading-underscore keys are passed through verbatim; any other value is
wrapped into a one-element list unless it already is a list (so the
subsequent dict test of the source, kept here verbatim, can never fire);
the cyclic per-trace application then runs, and the key is recorded in the
outgoing restyle data only if some stored value changed. -/
def performRestyleKey (data : List JVal) (restyleData : List (String × JVal))
    (rawKey : String) (v : JVal) (traceIndexes : List Int) :
    Except Err (List JVal × List (String × JVal)) :=
  let keyPath := strToDictPath rawKey
  if strStartsWith rawKey "_" then
    .ok (data, sset restyleData rawKey v)
  else
    let v' : JVal := if v.isArr then v else .arr [v]
    if v'.isObj then Except.error (.restyleObjects rawKey)
    else
      let vs := match v' with | .arr xs => xs | other => [other]
      do
        let (data', msgVs, changed) ←
          restyleTraces keyPath vs data traceIndexes 0 [] false
        .ok (data',
             if changed then sset restyleData rawKey (.arr msgVs)
             else restyleData)

/-- `BaseFigureWidget._perform_restyle_dict` (basedatatypes.py:348-414):
fold the patch entries in order over the figure's synchronized trace
mirror, returning the updated mirror and the restyle data to send.  The
caller passes `trace_indexes` as a list (the source's scalar wrap). -/
def performRestyleDict (data : List JVal) (style : List (String × JVal))
    (traceIndexes : List Int) :
    Except Err (List JVal × List (String × JVal)) :=
  foldME
    (fun acc kv => performRestyleKey acc.1 acc.2 kv.1 kv.2 traceIndexes)
    (data, ([] : List (String × JVal))) style

/-- The per-key value list the restyle loop cycles through: the elements
of a list value, else the one-element wrap of a scalar (the `v'` / `v`
computation of basedatatypes.py:364-365, factored out for the
statements). -/
def restyleValueList : JVal → List JVal
  | .arr xs => xs
  | v => [v]

/-! ### Figure state -/

/-- An outbound comm message: each write-then-clear of a `_py2js_*` trait
in the source is recorded as one entry of the figure's message log. -/
inductive Msg where
  | addTraces (tracesData : List JVal)
  | restyle (style : List (String × JVal)) (traceIndexes : List Int)
  | relayout (layoutPatch : List (String × JVal))
  | update (style : List (String × JVal))
      (layoutPatch : List (String × JVal)) (traceIndexes : List Int)
  | deleteTraces (deleteInds : List Nat) (relayoutMsgId : Int)
  | moveTraces (currentInds : List Nat) (newInds : List Nat)
deriving DecidableEq, Repr

/-- A trace datatype instance: its identifier, its orphan property
snapshot (`_orphan_props`, authoritative only while parentless) and its
parent back-reference (the owning figure or none). -/
structure Trace where
  uid : String
  orphanProps : List (Key × JVal)
  hasParent : Bool
deriving DecidableEq, Repr

/-- `BasePlotlyType._props` for a parentless trace resolves to its orphan
snapshot (basedatatypes.py:1456-1463); for a parented trace it resolves
through the owning figure's mirror, so this view is defined only for
orphans. -/
def Trace.orphanView (t : Trace) : Option (List (Key × JVal)) :=
  if t.hasParent then none else some t.orphanProps

/-- The `BaseFigureWidget` state: the synchronized plain-data mirrors, the
live trace objects, message counters and in-process flags, completion
callback queues (callbacks are identified by opaque numbers), batch state
and the outbound message log. -/
structure Figure where
  data : List JVal
  dataDefaults : List JVal
  dataObjs : List Trace
  layout : List (Key × JVal)
  lastRelayoutMsgId : Int
  lastRestyleMsgId : Int
  relayoutInProcess : Bool
  restyleInProcess : Bool
  waitingRelayoutCallbacks : List Nat
  waitingRestyleCallbacks : List Nat
  inBatchMode : Bool
  batchStyleCommands : List (Int × List (String × JVal))
  batchLayoutCommands : List (String × JVal)
  msgs : List Msg
deriving DecidableEq, Repr

/-- `BaseFigureWidget._send_restyle_msg` (basedatatypes.py:469-490):
increments and stamps the relayout message id, then the restyle message
id, sets both in-process flags and emits the restyle message. -/
def sendRestyleMsg (fig : Figure) (style : List (String × JVal))
    (traceIndexes : List Int) : Figure :=
  let relayoutMsgId := fig.lastRelayoutMsgId + 1
  let style1 := sset style "_relayout_msg_id" (.i relayoutMsgId)
  let restyleMsgId := fig.lastRestyleMsgId + 1
  let style2 := sset style1 "_restyle_msg_id" (.i restyleMsgId)
  { fig with
      lastRelayoutMsgId := relayoutMsgId
      relayoutInProcess := true
      lastRestyleMsgId := restyleMsgId
      restyleInProcess := true
      msgs := fig.msgs ++ [.restyle style2 traceIndexes] }

/-- The `trace_indexes` argument of `restyle`: absent, a single index, or
a list of indices. -/
inductive TraceSel where
  | one (i : Int)
  | many (l : List Int)
deriving DecidableEq, Repr

/-- Default / wrap logic for `trace_indexes`
(basedatatypes.py:337-341): absent means every trace of `self.data`. -/
def traceSelToList (fig : Figure) : Option TraceSel → List Int
  | none => (List.range fig.dataObjs.length).map Int.ofNat
  | some (.one i) => [i]
  | some (.many l) => l

/-- `BaseFigureWidget.restyle` (basedatatypes.py:336-346): perform the
patch, and only when some value changed dispatch change callbacks and send
one restyle message.  `_dispatch_change_callbacks_restyle` only reads
figure state and invokes registered callbacks; the model's figures carry
no callback registrations, so it leaves the state unchanged. -/
def Figure.restyle (fig : Figure) (style : List (String × JVal))
    (sel : Option TraceSel) : Except Err Figure := do
  let traceIndexes := traceSelToList fig sel
  let (data', msg) ← performRestyleDict fig.data style traceIndexes
  let fig1 := { fig with data := data' }
  if msg ≠ [] then
    .ok (sendRestyleMsg fig1 msg traceIndexes)
  else
    .ok fig1

/-- `BaseFigureWidget.on_relayout_completed` (basedatatypes.py:922-926):
run the callback now if no relayout is in process, else queue it.  The
returned flag is true when the callback ran immediately. -/
def Figure.onRelayoutCompleted (fig : Figure) (cb : Nat) : Figure × Bool :=
  if fig.relayoutInProcess then
    ({ fig with
        waitingRelayoutCallbacks := fig.waitingRelayoutCallbacks ++ [cb] },
     false)
  else (fig, true)

/-- `BaseFigureWidget.on_restyle_completed` (basedatatypes.py:928-932). -/
def Figure.onRestyleCompleted (fig : Figure) (cb : Nat) : Figure × Bool :=
  if fig.restyleInProcess then
    ({ fig with
        waitingRestyleCallbacks := fig.waitingRestyleCallbacks ++ [cb] },
     false)
  else (fig, true)

/-! ### Relayout patch application
`BaseFigureWidget._perform_relayout_dict` (basedatatypes.py:687-735). -/

/-- The relayout leaf assignment (basedatatypes.py:713-733): Undefined is
a no-op; None removes an existing dict key and records None; a list parent
with an integer leaf key is extended and assigned unconditionally; a dict
parent is assigned only when the value differs.  The second component is
the value recorded into the outgoing relayout data, if any. -/
def relayoutApplyLeaf (parent : JVal) (lastKey : Key) (v : JVal) :
    Except Err (JVal × Option JVal) :=
  if v = .undefined then .ok (parent, none)
  else if v = .null then
    match parent with
    | .obj fs =>
        if dmem fs lastKey then .ok (.obj (dpop fs lastKey), some .null)
        else .ok (parent, none)
    | _ => .ok (parent, none)
  else
    match parent with
    | .arr xs =>
        match lastKey with
        | .int n =>
            let xs' := extendTo xs n
            match pySet xs' n v with
            | none => Except.error .indexError
            | some xs'' => .ok (.arr xs'', some v)
        | .str _ => .ok (parent, none)
    | .obj fs =>
        if ¬ dmem fs lastKey ∨ dget fs lastKey ≠ some v then
          .ok (.obj (dset fs lastKey v), some v)
        else .ok (parent, none)
    | _ => .ok (parent, none)

/-- The relayout walk over `key_path[:-1]` (basedatatypes.py:696-711).
Unlike the restyle walk, each step is guarded by a Python membership test
`key_path_el not in val_parent`: on a list this is value containment (an
integer segment equal to some element suppresses the None-placeholder
extension), on a dict it is key containment, and on any non-container it
raises.  Then the segment is indexed.  A string parent always ends in a
TypeError here (an integer segment already fails the membership test, a
string segment fails the subsequent indexing). -/
def relayoutNav (parent : JVal) : List Key → JVal →
    Except Err (JVal × Option JVal)
  | [], _ => Except.error .indexError
  | [last], v => relayoutApplyLeaf parent last v
  | k :: rest, v =>
      match parent, k with
      | .arr xs, .int n =>
          let xs' := if xs.contains (JVal.i n) then xs else extendTo xs n
          match pyGet xs' n with
          | none => Except.error .indexError
          | some child => do
              let (child', recorded) ← relayoutNav child rest v
              match pySet xs' n child' with
              | none => Except.error .indexError
              | some xs'' => .ok (.arr xs'', recorded)
      | .arr _, .str _ => Except.error .typeError
      | .obj fs, _ =>
          let fs' :=
            if dmem fs k then fs
            else dset fs k (match rest with
                            | .int _ :: _ => .arr []
                            | _ => .obj [])
          match dget fs' k with
          | none => Except.error .indexError
          | some child => do
              let (child', recorded) ← relayoutNav child rest v
              .ok (.obj (dset fs' k child'), recorded)
      | _, _ => Except.error .typeError

/-- One patch entry of `_perform_relayout_dict`: walk the parsed key path
from the layout mirror and record the assigned value when one was
assigned or removed. -/
def performRelayoutKey (layout : List (Key × JVal))
    (msg : List (String × JVal)) (rawKey : String) (v : JVal) :
    Except Err (List (Key × JVal) × List (String × JVal)) := do
  let keyPath := strToDictPath rawKey
  let (root', recorded) ← relayoutNav (.obj layout) keyPath v
  match root' with
  | .obj fs =>
      .ok (fs, match recorded with
               | some rv => sset msg rawKey rv
               | none => msg)
  | _ => Except.error .typeError

/-- `BaseFigureWidget._perform_relayout_dict` (basedatatypes.py:687-735). -/
def performRelayoutDict (layout : List (Key × JVal))
    (patch : List (String × JVal)) :
    Except Err (List (Key × JVal) × List (String × JVal)) :=
  foldME (fun acc kv => performRelayoutKey acc.1 acc.2 kv.1 kv.2)
    (layout, ([] : List (String × JVal))) patch

/-- `BaseFigureWidget._send_relayout_msg` (basedatatypes.py:651-662):
increments and stamps the relayout message id and emits the relayout
message (this sender does not touch the in-process flag). -/
def sendRelayoutMsg (fig : Figure) (layoutPatch : List (String × JVal)) :
    Figure :=
  let msgId := fig.lastRelayoutMsgId + 1
  let patch' := sset layoutPatch "_relayout_msg_id" (.i msgId)
  { fig with
      lastRelayoutMsgId := msgId
      msgs := fig.msgs ++ [.relayout patch'] }

/-- `BaseFigureWidget.relayout` (basedatatypes.py:681-685). -/
def Figure.relayout (fig : Figure) (patch : List (String × JVal)) :
    Except Err Figure := do
  let (layout', msg) ← performRelayoutDict fig.layout patch
  let fig1 := { fig with layout := layout' }
  if msg ≠ [] then .ok (sendRelayoutMsg fig1 msg) else .ok fig1

/-! ### Combined update and batch contexts
(basedatatypes.py:784-847 and 936-978). -/

/-- `BaseFigureWidget._send_update_msg` (basedatatypes.py:824-847). -/
def sendUpdateMsg (fig : Figure) (style : List (String × JVal))
    (layoutPatch : List (String × JVal)) (traceIndexes : List Int) :
    Figure :=
  let restyleMsgId := fig.lastRestyleMsgId + 1
  let style' := sset style "_restyle_msg_id" (.i restyleMsgId)
  let relayoutMsgId := fig.lastRelayoutMsgId + 1
  let layout' := sset layoutPatch "_relayout_msg_id" (.i relayoutMsgId)
  { fig with
      lastRestyleMsgId := restyleMsgId
      restyleInProcess := true
      lastRelayoutMsgId := relayoutMsgId
      relayoutInProcess := true
      msgs := fig.msgs ++ [.update style' layout' traceIndexes] }

/-- Python falsiness of an optional dict argument (None or `{}`). -/
def isFalsyDict : Option (List (String × JVal)) → Bool
  | none => true
  | some [] => true
  | some (_ :: _) => false

/-- `BaseFigureWidget._perform_update_dict` (basedatatypes.py:800-821):
nothing to do when both patches are falsy; otherwise defaults are filled
in, the relayout computation runs first, then the restyle computation. -/
def performUpdateDict (fig : Figure)
    (style? layout? : Option (List (String × JVal)))
    (sel : Option TraceSel) :
    Except Err
      (Option (Figure × List (String × JVal) × List (String × JVal) ×
               List Int)) :=
  if isFalsyDict style? && isFalsyDict layout? then .ok none
  else do
    let style := style?.getD []
    let layoutPatch := layout?.getD []
    let traceIndexes := traceSelToList fig sel
    let (layout', relayoutMsg) ← performRelayoutDict fig.layout layoutPatch
    let (data', restyleMsg) ← performRestyleDict fig.data style traceIndexes
    .ok (some ({ fig with layout := layout', data := data' },
               restyleMsg, relayoutMsg, traceIndexes))

/-- `BaseFigureWidget.update` (basedatatypes.py:784-798): one combined
update message is sent only when either patch produced changes. -/
def Figure.update (fig : Figure)
    (style? layout? : Option (List (String × JVal)))
    (sel : Option TraceSel) : Except Err Figure := do
  let res ← performUpdateDict fig style? layout? sel
  match res with
  | none => .ok fig
  | some (fig1, restyleMsg, relayoutMsg, traceIndexes) =>
      if restyleMsg ≠ [] ∨ relayoutMsg ≠ [] then
        .ok (sendUpdateMsg fig1 restyleMsg relayoutMsg traceIndexes)
      else .ok fig1

/-- Lookup of one trace's accumulated batch style commands by trace index
(the accumulator is a dict keyed by trace index; keys are unique). -/
def bget (d : List (Int × List (String × JVal))) (k : Int) :
    Option (List (String × JVal)) :=
  match d with
  | [] => none
  | (k', v) :: rest => if k' = k then some v else bget rest k

/-- `BaseFigureWidget._build_update_params_from_batch`
(basedatatypes.py:949-972): the touched trace indices sorted, the union of
touched property names sorted, and for each property a per-position value
list filled from the accumulator with Undefined placeholders where a trace
did not touch that property (the source initializes all-Undefined lists
and then fills in the recorded values; with unique accumulator keys the
net result is this per-position lookup). -/
def buildUpdateParamsFromBatch (fig : Figure) :
    List (String × JVal) × List (String × JVal) × List Int :=
  let traceIndexes :=
    sortByLe (fun a b => decide (a ≤ b))
      (nubFirst (fig.batchStyleCommands.map (·.1)))
  let allProps :=
    sortByLe strLe
      (nubFirst
        ((fig.batchStyleCommands.map (fun ts => ts.2.map (·.1))).flatten))
  let style := allProps.map (fun p =>
    (p, JVal.arr (traceIndexes.map (fun ti =>
          match bget fig.batchStyleCommands ti with
          | some tstyle => (sget tstyle p).getD .undefined
          | none => .undefined))))
  (style, fig.batchLayoutCommands, traceIndexes)

/-- `BaseFigureWidget._send_batch_update` (basedatatypes.py:974-978). -/
def sendBatchUpdate (fig : Figure) : Except Err Figure := do
  let (style, layoutPatch, traceIndexes) := buildUpdateParamsFromBatch fig
  let fig1 ← fig.update (some style) (some layoutPatch)
    (some (.many traceIndexes))
  .ok { fig1 with batchLayoutCommands := [], batchStyleCommands := [] }

/-- Exit of the outermost `batch_update` scope (basedatatypes.py:936-947,
the `finally` block): leave batch mode, then flush the accumulated
commands.  The `finally` runs even when the scope is left through an
exception. -/
def batchUpdateExit (fig : Figure) : Except Err Figure :=
  sendBatchUpdate { fig with inBatchMode := false }

/-! ### `BaseFigureWidget.add_traces` (basedatatypes.py:506-554) -/

/-- Modelled from the spec: the Traces registry validator
(`ipyplotly.validators.TracesValidator`, generated code not under src/)
accepts a sequence of already-built trace instances or mappings, dispatches
each entry to the matching trace class's compound validator, and assigns
every resulting trace a freshly generated unique identifier if it lacks
one.  The embedding's inputs are already-built instances; `freshUids`
supplies the generated identifiers for entries lacking one. -/
def tracesValidateCoerce (freshUids : Nat → String) (ts : List Trace) :
    List Trace :=
  (pyEnum ts).map (fun it =>
    if it.2.uid = "" then { it.2 with uid := freshUids it.1 } else it.2)

/-- `BaseFigureWidget.add_traces` (basedatatypes.py:506-554).  In batch
mode both batch accumulators are cleared and the call raises; the
post-raise state is returned alongside the error (the source mutates in
place before raising).  Otherwise the input is validated, each new trace's
property data is deep-copied (the incoming instances are parentless, so
`_props` is their orphan snapshot), the traces are parented, the live
sequence, defaults and mirror are extended, both message ids are
incremented, stamped onto the shared per-trace payload dicts (which are
aliased into the mirror, so the mirror entries carry the stamps too), both
in-process flags are set, and one add-traces message is emitted. -/
def Figure.addTraces (fig : Figure) (ts : List Trace)
    (freshUids : Nat → String) : Figure × Except Err (List Trace) :=
  if fig.inBatchMode then
    ({ fig with batchLayoutCommands := [], batchStyleCommands := [] },
     .error .batchAddTraces)
  else
    let coerced := tracesValidateCoerce freshUids ts
    let newTracesData := coerced.map (fun t => t.orphanProps)
    let parented := coerced.map
      (fun t => { t with hasParent := true, orphanProps := [] })
    let relayoutMsgId := fig.lastRelayoutMsgId + 1
    let restyleMsgId := fig.lastRestyleMsgId + 1
    let stamped := newTracesData.map (fun d =>
      dset (dset d (.str "_relayout_msg_id") (.i relayoutMsgId))
        (.str "_restyle_msg_id") (.i restyleMsgId))
    ({ fig with
        data := fig.data ++ stamped.map JVal.obj
        dataDefaults := fig.dataDefaults ++ newTracesData.map (fun _ => JVal.obj [])
        dataObjs := fig.dataObjs ++ parented
        lastRelayoutMsgId := relayoutMsgId
        relayoutInProcess := true
        lastRestyleMsgId := restyleMsgId
        restyleInProcess := true
        msgs := fig.msgs ++ [.addTraces (stamped.map JVal.obj)] },
     .ok parented)

/-! ### The `data` property setter (basedatatypes.py:233-334) -/

/-- `set(new_uids).difference(set(orig_uids))` (basedatatypes.py:240),
with the embedding's fixed first-occurrence iteration order. -/
def invalidUidsOf (origUids newUids : List String) : List String :=
  nubFirst (newUids.filter (fun u => u ∉ origUids))

/-- The uids whose `collections.Counter` count exceeds one
(basedatatypes.py:247-248). -/
def duplicateUidsOf (newUids : List String) : List String :=
  nubFirst (newUids.filter (fun u => 1 < newUids.count u))

/-- `set(orig_uids).difference(set(new_uids))` (basedatatypes.py:256). -/
def removeUidsOf (origUids newUids : List String) : List String :=
  nubFirst (origUids.filter (fun u => u ∉ newUids))

/-- Read a trace mirror entry's `uid` field (`_trace['uid']`); every
trace mirror is a dict carrying a string uid. -/
def mirrorUid (t : JVal) : Except Err String :=
  match t with
  | .obj fs =>
      match dget fs (.str "uid") with
      | some (.s u) => .ok u
      | some _ => Except.error .typeError
      | none => Except.error (.keyNotFound "uid")
  | _ => Except.error .typeError

/-- The removal scan of the data setter (basedatatypes.py:257-265):
collect the mirror indices whose uid is scheduled for removal and orphan
the corresponding live trace objects — the last known mirror data is
merged into their orphan snapshot (`_orphan_props.update(deepcopy(...))`;
the i-th parented trace's `_props` resolve through the figure to
`self._data[i]`) and the parent link is cleared. -/
def deletionStep (removeUids : List String) (fig : Figure)
    (acc : List Nat × List Trace) (it : Nat × JVal) :
    Except Err (List Nat × List Trace) := do
  let u ← mirrorUid it.2
  if u ∈ removeUids then
    match fig.dataObjs.get? it.1 with
    | none => Except.error .indexError
    | some oldTrace => do
        let fields ← match it.2 with
          | .obj fs => Except.ok fs
          | _ => Except.error Err.typeError
        let orphaned := { oldTrace with
            orphanProps := dupdate oldTrace.orphanProps fields,
            hasParent := false }
        .ok (acc.1 ++ [it.1], acc.2 ++ [orphaned])
  else .ok acc

def computeDeletions (removeUids : List String) (fig : Figure) :
    Except Err (List Nat × List Trace) :=
  foldME (deletionStep removeUids fig)
    (([] : List Nat), ([] : List Trace)) (pyEnum fig.data)

/-- `del xs[i]` for each index in reverse order
(basedatatypes.py:272-275 and 282-283). -/
def eraseIdxs {α : Type} (xs : List α) (inds : List Nat) : List α :=
  inds.reverse.foldl (fun acc i => acc.eraseIdx i) xs

/-- The in-place mirror reorder of the move block
(basedatatypes.py:317-328): pop every entry (`moving_traces_data`), sort
the (new index, entry) pairs by new index, and reinsert in forward order.
Also returns the sorted index tuple that the source rebinds `new_inds`
to. -/
def reorderMirror (post : List JVal) (newInds : List Nat) :
    List JVal × List Nat :=
  let pairs := sortByLe (fun a b => decide (a.1 ≤ b.1)) (newInds.zip post)
  (pairs.foldl (fun acc p => acc.insertIdx p.1 p.2) [], pairs.map (·.1))

/-- The move-index computation of the data setter
(basedatatypes.py:294-297): for each retained original uid, its position
in the assigned uid sequence (`new_uids.index(uid)`; the unreachable
ValueError of `list.index` is an error). -/
def newIndsOf (newUids uids : List String) : Except Err (List Nat) :=
  mapME (fun u =>
      match pyIndexOf newUids u with
      | some j => Except.ok j
      | none => Except.error Err.indexError) uids

/-- The `data` property setter (basedatatypes.py:233-334).  Validates that
the assigned uids are a duplicate-free subset of the current mirror uids;
removes the missing traces (orphaning the removed live objects, deleting
their mirror entries and emitting one delete-traces message); emits one
move-traces message and reorders the mirror in place when the relative
order changed; recomputes the defaults list from the (possibly rebound)
`new_inds`; and replaces the live trace sequence with the caller-supplied
order.  Returns the new figure and the orphaned removed trace objects (in
mirror order), which in the source survive only through caller-held
references. -/
def Figure.setData (fig : Figure) (newData : List Trace) :
    Except Err (Figure × List Trace) := do
  let origUids ← mapME mirrorUid fig.data
  let newUids := newData.map Trace.uid
  let invalidUids := invalidUidsOf origUids newUids
  if invalidUids ≠ [] then Except.error (.invalidUids invalidUids)
  let duplicateUids := duplicateUidsOf newUids
  if duplicateUids ≠ [] then Except.error (.duplicateUids duplicateUids)
  let removeUids := removeUidsOf origUids newUids
  let (deleteInds, orphans) ← computeDeletions removeUids fig
  let tracesPropsPostRemoval := eraseIdxs fig.data deleteInds
  let defaultsPostRemoval := eraseIdxs fig.dataDefaults deleteInds
  let origUidsPostRemoval := eraseIdxs origUids deleteInds
  let fig1 :=
    if deleteInds ≠ [] then
      { fig with
          lastRelayoutMsgId := fig.lastRelayoutMsgId + 1,
          relayoutInProcess := true,
          data := tracesPropsPostRemoval,
          msgs := fig.msgs ++
            [.deleteTraces deleteInds (fig.lastRelayoutMsgId + 1)] }
    else { fig with data := tracesPropsPostRemoval }
  let newInds ← newIndsOf newUids origUidsPostRemoval
  let currentInds := List.range tracesPropsPostRemoval.length
  let (fig2, newIndsFinal) :=
    if ¬ ((newInds.zip currentInds).all (fun p => p.1 == p.2)) then
      let (reordered, newIndsSorted) := reorderMirror fig1.data newInds
      ({ fig1 with
           msgs := fig1.msgs ++ [.moveTraces currentInds newInds],
           data := reordered }, newIndsSorted)
    else (fig1, newInds)
  let finalDefaults :=
    (sortByLe (fun a b => decide (a.1 ≤ b.1))
      (newIndsFinal.zip defaultsPostRemoval)).map (·.2)
  .ok ({ fig2 with dataDefaults := finalDefaults, dataObjs := newData },
       orphans)

/-! ### Generic string-keyed association maps (Python dict semantics) -/

/-- Generic dict lookup. -/
def aget {α : Type} (d : List (String × α)) (k : String) : Option α :=
  match d with
  | [] => none
  | (k', v) :: rest => if k' = k then some v else aget rest k

/-- Generic dict update/insert, Python semantics. -/
def aset {α : Type} (d : List (String × α)) (k : String) (v : α) :
    List (String × α) :=
  match d with
  | [] => [(k, v)]
  | (k', v') :: rest =>
      if k' = k then (k', v) :: rest else (k', v') :: aset rest k v

/-! ### Layout subplot properties
`BaseLayoutType` (basedatatypes.py:1778-1834). -/

/-- A registered subplot validator: the base subplot kind whose validator
class is instantiated and the exact property name it is constructed with
(`self._subplotid_validators[subplot_prop](prop_name=prop)`,
basedatatypes.py:1808). -/
structure SubplotValidator where
  base : String
  propName : String
deriving DecidableEq, Repr

/-- A compound child instance of the layout (e.g. an axis object): its
object identity (`oid` models Python object identity), its orphan property
snapshot, and its parent link. -/
structure PlotlyChild where
  oid : Nat
  props : List (Key × JVal)
  hasParent : Bool
deriving DecidableEq, Repr

/-- A standalone (parentless) `BaseLayoutType` instance: the registered
subplot validators (the generated ordinary-property validators are not
modelled; `_set_subplotid_prop` only ever consults digit-suffixed names,
which are never among them), the compound children, the subplot side
table, and the orphan property snapshot that backs `_props` while the
layout has no parent. -/
structure LayoutObj where
  validators : List (String × SubplotValidator)
  compoundProps : List (String × PlotlyChild)
  subplotidProps : List (String × PlotlyChild)
  orphanProps : List (Key × JVal)
deriving DecidableEq, Repr

/-- `BaseLayoutType._subplotid_prop_names` (basedatatypes.py:1779). -/
def subplotidPropNames : List String :=
  ["xaxis", "yaxis", "geo", "ternary", "scene"]

/-- `_subplotid_prop_re.fullmatch`: the regex
`(xaxis|yaxis|geo|ternary|scene)(\d+)` matched against the whole name;
returns the two groups.  The five alternatives are pairwise prefix-free,
so trying them in order is the alternation. -/
def subplotidMatch (prop : String) : Option (String × String) :=
  subplotidPropNames.findSome? fun base =>
    if strStartsWith prop base then
      let sfx := String.mk (prop.data.drop base.data.length)
      if sfx.data ≠ [] ∧ sfx.data.all Char.isDigit then some (base, sfx)
      else none
    else none

/-- `_props` of a child attached to a standalone layout
(basedatatypes.py:1456-1463 and 1491-1506): a parentless child answers
with its orphan snapshot; a child parented to the standalone layout makes
the layout dereference its own absent parent, an AttributeError.  The
embedding's inputs are standalone children. -/
def childPropsStandalone (c : PlotlyChild) :
    Except Err (List (Key × JVal)) :=
  if c.hasParent then Except.error (.attributeError "parent")
  else .ok c.props

/-- `BasePlotlyType._set_compound_prop` (basedatatypes.py:1606-1651) on a
standalone (parentless, hence never in batch mode) layout, for an incoming
child instance.  The compound validator (`ipyplotly.basevalidators`, not
under src/) is modelled from the spec: it uses an instance of the target
compound class as-is.  Deep copies of the current and new child snapshots
are diffed; the layout's own `_props` (its orphan snapshot, since it has
no parent) gets the new snapshot (or loses the key when the new snapshot
is empty, Python falsiness of `{}`); `_send_update` is a no-op without a
parent; the new child is reparented with its orphan snapshot cleared; a
distinct previous child is detached with its last snapshot as its orphan
data (that detached object survives only through caller references and is
not part of the returned state). -/
def setCompoundProp (l : LayoutObj) (prop : String) (value : PlotlyChild) :
    Except Err (LayoutObj × PlotlyChild) := do
  let currVal := aget l.compoundProps prop
  let currDict ← match currVal with
    | some c => do
        let ps ← childPropsStandalone c
        Except.ok (some ps)
    | none => Except.ok none
  let newDict ← childPropsStandalone value
  let props' :=
    if newDict = [] then
      if dmem l.orphanProps (.str prop) then dpop l.orphanProps (.str prop)
      else l.orphanProps
    else dset l.orphanProps (.str prop) (.obj newDict)
  let _changed := currDict ≠ some newDict
  let val' : PlotlyChild := { value with hasParent := true, props := [] }
  .ok ({ l with
           orphanProps := props'
           compoundProps := aset l.compoundProps prop val' },
       val')

/-- `BaseLayoutType._set_subplotid_prop` (basedatatypes.py:1797-1812): a
suffix digit of 0 or 1 raises (the source's TypeError; the spec's
InvalidInput kind); otherwise a dedicated validator is registered under
the exact suffixed name if none is yet, the value is imported via
`_set_compound_prop`, and the result is stored in the subplot side
table. -/
def setSubplotidProp (l : LayoutObj) (prop : String) (value : PlotlyChild) :
    Except Err LayoutObj := do
  match subplotidMatch prop with
  | none => Except.error (.attributeError prop)
  | some (subplotProp, sfx) =>
      -- suffix_digit = int(match.group(2)); the group is a digit run
      match digitsToNat sfx.data with
      | suffixDigit =>
          if suffixDigit = 0 ∨ suffixDigit = 1 then
            Except.error (.subplotSuffix prop)
          else do
            let v : SubplotValidator := { base := subplotProp, propName := prop }
            let l1 :=
              if (aget l.validators prop).isSome then l
              else { l with validators := aset l.validators prop v }
            let (l2, child) ← setCompoundProp l1 prop value
            .ok { l2 with
                    subplotidProps := aset l2.subplotidProps prop child }

/-- `BaseLayoutType.__getattr__` (basedatatypes.py:1814-1820), which
Python consults for names without a class descriptor: a registered
subplot name answers from the side table, anything else is an
AttributeError.  (Unsuffixed names like `xaxis` have generated descriptors
and never reach this hook.) -/
def layoutGetattr (l : LayoutObj) (item : String) : Except Err PlotlyChild :=
  match aget l.subplotidProps item with
  | some c => .ok c
  | none => Except.error (.attributeError item)

/-- Outcome of `BaseLayoutType.__setattr__` (basedatatypes.py:1822-1830):
a name matching the subplot regex goes to `_set_subplotid_prop`; any other
name falls through to the generic `BasePlotlyType.__setattr__`, outside
the subplot machinery. -/
inductive SetattrOutcome where
  | subplot (res : Except Err LayoutObj)
  | ordinary
deriving Repr

/-- `BaseLayoutType.__setattr__` (basedatatypes.py:1822-1830). -/
def layoutSetattr (l : LayoutObj) (prop : String) (value : PlotlyChild) :
    SetattrOutcome :=
  match subplotidMatch prop with
  | none => .ordinary
  | some _ => .subplot (setSubplotidProp l prop value)

/-! ### Schema compiler validator emission
`build_validators_py` (src/codegen/validators.py:9-93). -/

/-- `custom_validator_datatypes` (src/codegen/validators.py:9). -/
def custom_validator_datatypes : List (String × String) :=
  [("layout.image.source", "ImageUri")]

/-- One schema node as consumed by `build_validators_py`: the fields are
the `PlotlyNode` properties the emitter reads.  Derived naming fields
(`name_validator`, `name_pascal_case`, ...) are produced by the Schema
Model (codegen/utils.py, not under src/) and enter the embedding as
data. -/
structure PlotlyNode where
  dirStr : String
  parentDirStr : String
  nameProperty : String
  nameValidator : String
  namePascalCase : String
  datatype : String
  isCompound : Bool
  isArrayElement : Bool
  isSimple : Bool
  /-- `simple_attrs` entries as (name, name_undercase, repr(node_data)). -/
  simpleAttrs : List (String × String × String)
deriving DecidableEq, Repr

/-- Pascal-casing of a declared value kind, as used for the generated
base-validator names (e.g. "number" to "Number"). -/
def pascalCase (s : String) : String :=
  match s.data with
  | [] => ""
  | c :: rest => String.mk (c.toUpper :: rest)

/-- Modelled from the spec: `PlotlyNode.name_base_validator` is defined in
codegen/utils.py, which is not among the sources.  Per the spec, the
generated validator's base kind is "named after the node's declared value
kind ... with one fixed exception: a node whose dotted path is exactly
'layout.image.source' always uses the image-uri base regardless of its
declared kind"; the exception table itself is `custom_validator_datatypes`
from src/codegen/validators.py:9 (the emitter's inline copy of the lookup
is the commented-out block at src/codegen/validators.py:42-45). -/
def name_base_validator (n : PlotlyNode) : String :=
  match aget custom_validator_datatypes n.dirStr with
  | some base => base ++ "Validator"
  | none => pascalCase n.datatype ++ "Validator"

/-- The constructor arguments emitted for one datatype node
(src/codegen/validators.py:61-91). -/
inductive EmittedCtorArgs where
  | arrayElement (elementClass : String)
  | compound (dataClass : String)
  | simple (attrs : List (String × String))
deriving DecidableEq, Repr

/-- One emitted validator class: its name, its base class (the emitted
header is `class {name_validator}(bv.{name_base_validator}):`,
src/codegen/validators.py:49), the property and parent names passed to the
base constructor, and the remaining constructor arguments. -/
structure EmittedValidator where
  className : String
  baseName : String
  propName : String
  parentName : String
  ctorArgs : EmittedCtorArgs
deriving DecidableEq, Repr

/-- The generic schema metadata keys excluded from forwarded constructor
arguments, with `dflt` re-included for subplotid leaves
(src/codegen/validators.py:72-76). -/
def excludedProps (n : PlotlyNode) : List String :=
  if n.datatype = "subplotid" then ["valType", "description", "role"]
  else ["valType", "description", "role", "dflt"]

/-- Emission for one datatype node (the body of the compound-datatypes
loop, src/codegen/validators.py:40-91): array-element and compound nodes
wire in their datatype class; simple nodes forward every schema attribute
except the generic metadata keys, and a color leaf additionally receives
the sibling colorscale node's dotted path when one exists. -/
def emitValidatorFor (colorscalePath : Option String) (n : PlotlyNode) :
    EmittedValidator :=
  { className := n.nameValidator
    baseName := name_base_validator n
    propName := n.nameProperty
    parentName := n.parentDirStr
    ctorArgs :=
      if n.isArrayElement then .arrayElement n.namePascalCase
      else if n.isCompound then .compound n.namePascalCase
      else
        let attrs := (n.simpleAttrs.filter
            (fun a => a.1 ∉ excludedProps n)).map
          (fun a => (a.2.1, a.2.2))
        let attrs' :=
          if n.datatype = "color" then
            match colorscalePath with
            | some p => aset attrs "colorscale_path" p
            | none => attrs
          else attrs
        .simple attrs' }

/-- `build_validators_py` (src/codegen/validators.py:12-93): the extra
nodes under the parent's path are appended to the parent's child datatype
nodes (the `child_datatypes` list is produced by the missing Schema Model
and enters as data); nothing is emitted when no datatype nodes exist; the
first colorscale node's path, if any, is wired into color validators; one
validator class is emitted per node, in order. -/
def buildValidatorsPy (parentDirStr : String)
    (childDatatypes : List PlotlyNode)
    (extraNodes : List (String × PlotlyNode)) :
    Option (List EmittedValidator) :=
  let extraSubtypeNodes :=
    (extraNodes.filter (fun p => strStartsWith p.1 parentDirStr)).map (·.2)
  let datatypeNodes := childDatatypes ++ extraSubtypeNodes
  if datatypeNodes = [] then none
  else
    let colorscalePath :=
      match datatypeNodes.filter (fun n => n.datatype = "colorscale") with
      | [] => none
      | n :: _ => some n.dirStr
    some (datatypeNodes.map (emitValidatorFor colorscalePath))

/-- The layout state produced by a first-time `xaxis2` assignment of a
standalone child (the value `setSubplotidProp` computes in that case;
stated as a definition so theorems can name it). -/
def layoutAfterXaxis2 (l : LayoutObj) (v : PlotlyChild) : LayoutObj :=
  { validators :=
      aset l.validators "xaxis2" { base := "xaxis", propName := "xaxis2" }
    compoundProps :=
      aset l.compoundProps "xaxis2" { v with hasParent := true, props := [] }
    subplotidProps :=
      aset l.subplotidProps "xaxis2" { v with hasParent := true, props := [] }
    orphanProps :=
      if v.props = [] then
        if dmem l.orphanProps (.str "xaxis2") then
          dpop l.orphanProps (.str "xaxis2")
        else l.orphanProps
      else dset l.orphanProps (.str "xaxis2") (.obj v.props) }

/-! ### Concrete instances used by the witnesses and counterexamples -/

/-- A parented scatter-like trace with uid "a". -/
def traceExA : Trace := { uid := "a", orphanProps := [], hasParent := true }

/-- A parented scatter-like trace with uid "b". -/
def traceExB : Trace := { uid := "b", orphanProps := [], hasParent := true }

/-- Mirror entry of `traceExA`. -/
def mirrorExA : JVal := .obj [(.str "uid", .s "a"), (.str "x", .i 1)]

/-- Mirror entry of `traceExB`. -/
def mirrorExB : JVal := .obj [(.str "uid", .s "b"), (.str "x", .i 2)]

/-- A freshly constructed two-trace figure. -/
def figEx : Figure :=
  { data := [mirrorExA, mirrorExB]
    dataDefaults := [.obj [], .obj []]
    dataObjs := [traceExA, traceExB]
    layout := []
    lastRelayoutMsgId := 0
    lastRestyleMsgId := 0
    relayoutInProcess := false
    restyleInProcess := false
    waitingRelayoutCallbacks := []
    waitingRestyleCallbacks := []
    inBatchMode := false
    batchStyleCommands := []
    batchLayoutCommands := []
    msgs := [] }

/-- A three-trace figure with empty trace property dicts (apart from
uids), used to exercise the cyclic restyle patch. -/
def figEx3 : Figure :=
  { figEx with
      data := [.obj [(.str "uid", .s "a")], .obj [(.str "uid", .s "b")],
               .obj [(.str "uid", .s "c")]]
      dataDefaults := [.obj [], .obj [], .obj []]
      dataObjs := [traceExA, traceExB, { uid := "c", orphanProps := [], hasParent := true }] }

/-- The example figure inside an open batch context with one pending
per-trace style write and one pending layout write. -/
def figBatchEx : Figure :=
  { figEx with
      inBatchMode := true
      batchStyleCommands := [(0, [("opacity", JVal.i 1)])]
      batchLayoutCommands := [("title", JVal.s "t")] }

/-- A fresh standalone layout. -/
def layoutEx : LayoutObj :=
  { validators := [], compoundProps := [], subplotidProps := [],
    orphanProps := [] }

/-- A standalone axis child instance. -/
def childEx : PlotlyChild :=
  { oid := 1, props := [(.str "range", .arr [.i 0, .i 1])],
    hasParent := false }

/-- A schema node at the dotted path "layout.image.source" whose declared
value kind is "string" (not image-uri). -/
def nodeExSource : PlotlyNode :=
  { dirStr := "layout.image.source"
    parentDirStr := "layout.image"
    nameProperty := "source"
    nameValidator := "SourceValidator"
    namePascalCase := "Source"
    datatype := "string"
    isCompound := false
    isArrayElement := false
    isSimple := true
    simpleAttrs := [("valType", ("val_type", "'string'")),
                    ("role", ("role", "'info'"))] }

/-! ## Helper lemmas about the dict operations -/

theorem sget_sset_self (d : List (String × JVal)) (k : String) (v : JVal) :
    sget (sset d k v) k = some v := by
  induction d with
  | nil => simp [sget, sset]
  | cons hd tl ih =>
      cases hd with
      | mk k0 v0 =>
          by_cases h2 : k0 = k
          · subst h2; simp [sget, sset]
          · simp [sget, sset, h2, ih]

theorem sget_sset_ne (d : List (String × JVal)) (k k' : String) (v : JVal)
    (h : k' ≠ k) : sget (sset d k v) k' = sget d k' := by
  have h' : ¬ k = k' := fun hh => h hh.symm
  induction d with
  | nil => simp [sget, sset, h']
  | cons hd tl ih =>
      cases hd with
      | mk k0 v0 =>
          by_cases h2 : k0 = k
          · subst h2; simp [sget, sset, h']
          · simp [sget, sset, h2, ih]

theorem aget_aset_self {α : Type} (d : List (String × α)) (k : String)
    (v : α) : aget (aset d k v) k = some v := by
  induction d with
  | nil => simp [aget, aset]
  | cons hd tl ih =>
      cases hd with
      | mk k0 v0 =>
          by_cases h2 : k0 = k
          · subst h2; simp [aget, aset]
          · simp [aget, aset, h2, ih]

theorem aget_aset_ne {α : Type} (d : List (String × α)) (k k' : String)
    (v : α) (h : k' ≠ k) : aget (aset d k v) k' = aget d k' := by
  have h' : ¬ k = k' := fun hh => h hh.symm
  induction d with
  | nil => simp [aget, aset, h']
  | cons hd tl ih =>
      cases hd with
      | mk k0 v0 =>
          by_cases h2 : k0 = k
          · subst h2; simp [aget, aset, h']
          · simp [aget, aset, h2, ih]

theorem dget_dset_self (d : List (Key × JVal)) (k : Key) (v : JVal) :
    dget (dset d k v) k = some v := by
  induction d with
  | nil => simp [dget, dset]
  | cons hd tl ih =>
      cases hd with
      | mk k0 v0 =>
          by_cases h2 : k0 = k
          · subst h2; simp [dget, dset]
          · simp [dget, dset, h2, ih]

theorem dget_dset_ne (d : List (Key × JVal)) (k k' : Key) (v : JVal)
    (h : k' ≠ k) : dget (dset d k v) k' = dget d k' := by
  have h' : ¬ k = k' := fun hh => h hh.symm
  induction d with
  | nil => simp [dget, dset, h']
  | cons hd tl ih =>
      cases hd with
      | mk k0 v0 =>
          by_cases h2 : k0 = k
          · subst h2; simp [dget, dset, h']
          · simp [dget, dset, h2, ih]

theorem dget_dpop_ne (d : List (Key × JVal)) (k k' : Key) (h : k' ≠ k) :
    dget (dpop d k) k' = dget d k' := by
  have h' : ¬ k = k' := fun hh => h hh.symm
  induction d with
  | nil => simp [dget, dpop]
  | cons hd tl ih =>
      cases hd with
      | mk k0 v0 =>
          by_cases h2 : k0 = k
          · subst h2; simp [dget, dpop, h']
          · simp [dget, dpop, h2, ih]

theorem mem_nubFirstAux {α : Type} [DecidableEq α] :
    ∀ (l seen : List α) (a : α),
      a ∈ nubFirstAux seen l ↔ (a ∈ l ∧ a ∉ seen) := by
  intro l
  induction l with
  | nil => intro seen a; simp [nubFirstAux]
  | cons x rest ih =>
      intro seen a
      by_cases hx : x ∈ seen
      · simp only [nubFirstAux, if_pos hx, ih]
        by_cases hax : a = x
        · subst hax; simp [hx]
        · simp [hax]
      · simp only [nubFirstAux, if_neg hx, List.mem_cons, ih]
        by_cases hax : a = x
        · subst hax; simp [hx]
        · simp [hax]

theorem mem_nubFirst {α : Type} [DecidableEq α] (l : List α) (a : α) :
    a ∈ nubFirst l ↔ a ∈ l := by
  rw [nubFirst, mem_nubFirstAux]
  simp

theorem mem_invalidUidsOf (origUids newUids : List String) (u : String) :
    u ∈ invalidUidsOf origUids newUids ↔ (u ∈ newUids ∧ u ∉ origUids) := by
  rw [invalidUidsOf, mem_nubFirst]
  simp [List.mem_filter]

theorem mem_duplicateUidsOf (newUids : List String) (u : String) :
    u ∈ duplicateUidsOf newUids ↔
      (u ∈ newUids ∧ 1 < newUids.count u) := by
  rw [duplicateUidsOf, mem_nubFirst]
  simp [List.mem_filter]

theorem mem_removeUidsOf (origUids newUids : List String) (u : String) :
    u ∈ removeUidsOf origUids newUids ↔ (u ∈ origUids ∧ u ∉ newUids) := by
  rw [removeUidsOf, mem_nubFirst]
  simp [List.mem_filter]

theorem invalidUidsOf_eq_nil (origUids newUids : List String)
    (h : ∀ u ∈ newUids, u ∈ origUids) :
    invalidUidsOf origUids newUids = [] := by
  rw [invalidUidsOf]
  have hf : newUids.filter (fun u => u ∉ origUids) = [] := by
    rw [List.filter_eq_nil_iff]
    intro a ha
    simpa using h a ha
  rw [hf]
  rfl

theorem removeUidsOf_eq_nil (origUids newUids : List String)
    (h : ∀ u ∈ origUids, u ∈ newUids) :
    removeUidsOf origUids newUids = [] := by
  rw [removeUidsOf]
  have hf : origUids.filter (fun u => u ∉ newUids) = [] := by
    rw [List.filter_eq_nil_iff]
    intro a ha
    simpa using h a ha
  rw [hf]
  rfl

theorem mapME_ok_length {ε α β : Type} (f : α → Except ε β) :
    ∀ (l : List α) (r : List β), mapME f l = Except.ok r →
      r.length = l.length := by
  intro l
  induction l with
  | nil =>
      intro r h
      simp [mapME] at h
      simp [← h]
  | cons x xs ih =>
      intro r h
      simp only [mapME, Bind.bind, Except.bind] at h
      cases hf : f x with
      | error e => rw [hf] at h; simp at h
      | ok y =>
          rw [hf] at h
          cases hm : mapME f xs with
          | error e => rw [hm] at h; simp at h
          | ok ys =>
              rw [hm] at h
              simp at h
              simp [← h, ih ys hm]

theorem mapME_ok_forall {ε α β : Type} (f : α → Except ε β) :
    ∀ (l : List α) (r : List β), mapME f l = Except.ok r →
      ∀ x ∈ l, ∃ y, f x = Except.ok y := by
  intro l
  induction l with
  | nil => intro r _ x hx; simp at hx
  | cons a as ih =>
      intro r h x hx
      simp only [mapME, Bind.bind, Except.bind] at h
      cases hf : f a with
      | error e => rw [hf] at h; simp at h
      | ok y =>
          rw [hf] at h
          cases hm : mapME f as with
          | error e => rw [hm] at h; simp at h
          | ok ys =>
              rcases List.mem_cons.mp hx with hxa | hxs
              · exact ⟨y, hxa ▸ hf⟩
              · exact ih ys hm x hxs

theorem mapME_ok_get {ε α β : Type} (f : α → Except ε β) :
    ∀ (l : List α) (r : List β), mapME f l = Except.ok r →
      ∀ (i : Nat) (x : α), l[i]? = some x →
        ∃ y, r[i]? = some y ∧ f x = Except.ok y := by
  intro l
  induction l with
  | nil => intro r _ i x hx; simp at hx
  | cons a as ih =>
      intro r h i x hx
      simp only [mapME, Bind.bind, Except.bind] at h
      cases hf : f a with
      | error e => rw [hf] at h; simp at h
      | ok y =>
          rw [hf] at h
          cases hm : mapME f as with
          | error e => rw [hm] at h; simp at h
          | ok ys =>
              rw [hm] at h
              simp at h
              subst h
              cases i with
              | zero =>
                  simp at hx
                  exact ⟨y, by simp, hx ▸ hf⟩
              | succ j =>
                  simp at hx ⊢
                  exact ih ys hm j x hx

theorem mem_pyEnumFrom {α : Type} :
    ∀ (l : List α) (i : Nat) (p : Nat × α), p ∈ pyEnumFrom i l →
      p.2 ∈ l := by
  intro l
  induction l with
  | nil => intro i p hp; simp [pyEnumFrom] at hp
  | cons x xs ih =>
      intro i p hp
      rcases List.mem_cons.mp hp with h | h
      · simp [h]
      · exact List.mem_cons_of_mem _ (ih (i + 1) p h)

theorem pyEnumFrom_of_get {α : Type} :
    ∀ (l : List α) (j i : Nat) (x : α), l[j]? = some x →
      (i + j, x) ∈ pyEnumFrom i l := by
  intro l
  induction l with
  | nil => intro j i x hx; simp at hx
  | cons a as ih =>
      intro j i x hx
      cases j with
      | zero =>
          simp at hx
          simp [pyEnumFrom, hx]
      | succ k =>
          simp at hx
          have := ih k (i + 1) x hx
          rw [pyEnumFrom]
          refine List.mem_cons_of_mem _ ?_
          have harith : i + 1 + k = i + (k + 1) := by omega
          rw [← harith]
          exact this

theorem duplicateUidsOf_eq_nil (newUids : List String)
    (h : newUids.Nodup) : duplicateUidsOf newUids = [] := by
  rw [duplicateUidsOf]
  have hf : newUids.filter (fun u => 1 < newUids.count u) = [] := by
    rw [List.filter_eq_nil_iff]
    intro a _
    have hc := List.nodup_iff_count_le_one.mp h a
    simp
    omega
  rw [hf]
  rfl

theorem eraseIdxs_nil {α : Type} (xs : List α) : eraseIdxs xs [] = xs := rfl

theorem zip_all_eq_iff :
    ∀ (as bs : List Nat), as.length = bs.length →
      (((as.zip bs).all (fun p => p.1 == p.2)) = true ↔ as = bs) := by
  intro as
  induction as with
  | nil =>
      intro bs h
      cases bs with
      | nil => simp
      | cons b bs => simp at h
  | cons a as ih =>
      intro bs h
      cases bs with
      | nil => simp at h
      | cons b bs =>
          simp only [List.zip_cons_cons, List.all_cons, Bool.and_eq_true,
            beq_iff_eq, List.cons.injEq]
          rw [ih bs (by simpa using h)]

theorem deletionStep_nilRemove (fig : Figure)
    (acc : List Nat × List Trace) (p : Nat × JVal) (u : String)
    (hu : mirrorUid p.2 = Except.ok u) :
    deletionStep [] fig acc p = Except.ok acc := by
  simp [deletionStep, hu, Bind.bind, Except.bind]

theorem foldME_deletionStep_nilRemove (fig : Figure) :
    ∀ (l : List (Nat × JVal)) (acc : List Nat × List Trace),
      (∀ p ∈ l, ∃ u, mirrorUid p.2 = Except.ok u) →
      foldME (deletionStep [] fig) acc l = Except.ok acc := by
  intro l
  induction l with
  | nil => intro acc _; rfl
  | cons p ps ih =>
      intro acc h
      obtain ⟨u, hu⟩ := h p (List.mem_cons_self _ _)
      rw [foldME]
      simp only [deletionStep_nilRemove fig acc p u hu, Bind.bind,
        Except.bind]
      exact ih acc (fun q hq => h q (List.mem_cons_of_mem _ hq))

theorem computeDeletions_nilRemove (fig : Figure) (origUids : List String)
    (huids : mapME mirrorUid fig.data = Except.ok origUids) :
    computeDeletions [] fig = Except.ok ([], []) := by
  rw [computeDeletions]
  apply foldME_deletionStep_nilRemove
  intro p hp
  exact mapME_ok_forall mirrorUid fig.data origUids huids p.2
    (mem_pyEnumFrom fig.data 0 p hp)

theorem dset_append_of_not_mem (d : List (Key × JVal)) (k : Key)
    (v : JVal) (h : dmem d k = false) : dset d k v = d ++ [(k, v)] := by
  induction d with
  | nil => rfl
  | cons hd tl ih =>
      cases hd with
      | mk k0 v0 =>
          by_cases h2 : k0 = k
          · exfalso
            simp [dmem, dget, h2] at h
          · simp only [dset, h2, if_false, List.cons_append]
            congr 1
            apply ih
            simpa [dmem, dget, h2] using h

theorem dmem_append_single (acc : List (Key × JVal)) (k k' : Key)
    (v : JVal) (h1 : dmem acc k' = false) (hne : ¬ k = k') :
    dmem (acc ++ [(k, v)]) k' = false := by
  induction acc with
  | nil => simp [dmem, dget, hne]
  | cons a as iha =>
      cases a with
      | mk ka va =>
          by_cases hka : ka = k'
          · simp [dmem, dget, hka] at h1
          · simp only [dmem, dget, List.cons_append, hka, if_false] at h1 ⊢
            exact iha h1

theorem foldl_dset_append (fs : List (Key × JVal)) :
    ∀ (acc : List (Key × JVal)),
      (∀ k ∈ fs.map Prod.fst, dmem acc k = false) →
      (fs.map Prod.fst).Nodup →
      fs.foldl (fun a kv => dset a kv.1 kv.2) acc = acc ++ fs := by
  induction fs with
  | nil => intro acc _ _; simp
  | cons kv rest ih =>
      intro acc hacc hnd
      cases kv with
      | mk k v =>
          simp only [List.foldl_cons]
          rw [dset_append_of_not_mem acc k v (hacc k (by simp))]
          rw [ih (acc ++ [(k, v)]) ?_ ?_]
          · simp
          · intro k' hk'
            have hne : ¬ k = k' := by
              simp only [List.map_cons, List.nodup_cons] at hnd
              intro he
              exact hnd.1 (he ▸ hk')
            exact dmem_append_single acc k k' v (hacc k' (by simp [hk'])) hne
          · simp only [List.map_cons, List.nodup_cons] at hnd
            exact hnd.2

theorem dupdate_nil_of_nodup (fs : List (Key × JVal))
    (h : (fs.map Prod.fst).Nodup) : dupdate [] fs = fs := by
  rw [dupdate]
  rw [foldl_dset_append fs [] (fun k _ => rfl) h]
  simp

theorem deletionStep_snd_mono (r : List String) (fig : Figure)
    (acc acc' : List Nat × List Trace) (p : Nat × JVal)
    (h : deletionStep r fig acc p = Except.ok acc') :
    ∃ tl, acc'.2 = acc.2 ++ tl := by
  rcases p with ⟨j, m⟩
  simp only [deletionStep, Bind.bind, Except.bind] at h
  cases hu : mirrorUid m with
  | error e => rw [hu] at h; simp at h
  | ok u =>
      rw [hu] at h
      simp only [] at h
      by_cases hin : u ∈ r
      · rw [if_pos hin] at h
        cases ht : fig.dataObjs.get? j with
        | none => rw [ht] at h; simp at h
        | some t =>
            rw [ht] at h
            cases m with
            | obj fs =>
                simp only [Bind.bind, Except.bind] at h
                simp at h
                exact ⟨_, by rw [← h]⟩
            | undefined => simp at h
            | null => simp at h
            | b x => simp at h
            | i x => simp at h
            | s x => simp at h
            | arr xs => simp at h
      · rw [if_neg hin] at h
        simp at h
        exact ⟨[], by simp [← h]⟩

theorem foldME_deletionStep_snd_mono (r : List String) (fig : Figure) :
    ∀ (l : List (Nat × JVal)) (acc res : List Nat × List Trace),
      foldME (deletionStep r fig) acc l = Except.ok res →
      ∃ tl, res.2 = acc.2 ++ tl := by
  intro l
  induction l with
  | nil =>
      intro acc res h
      simp [foldME] at h
      exact ⟨[], by simp [← h]⟩
  | cons p ps ih =>
      intro acc res h
      simp only [foldME, Bind.bind, Except.bind] at h
      cases hs : deletionStep r fig acc p with
      | error e => rw [hs] at h; simp at h
      | ok acc1 =>
          rw [hs] at h
          obtain ⟨tl1, h1⟩ := deletionStep_snd_mono r fig acc acc1 p hs
          obtain ⟨tl2, h2⟩ := ih acc1 res h
          exact ⟨tl1 ++ tl2, by rw [h2, h1, List.append_assoc]⟩

theorem foldME_deletionStep_mem (r : List String) (fig : Figure) :
    ∀ (l : List (Nat × JVal)) (acc res : List Nat × List Trace),
      foldME (deletionStep r fig) acc l = Except.ok res →
      ∀ (i : Nat) (fs : List (Key × JVal)) (u : String) (t : Trace),
        (i, JVal.obj fs) ∈ l →
        dget fs (.str "uid") = some (.s u) →
        u ∈ r →
        fig.dataObjs[i]? = some t →
        { uid := t.uid, orphanProps := dupdate t.orphanProps fs,
          hasParent := false } ∈ res.2 := by
  intro l
  induction l with
  | nil => intro acc res _ i fs u t hmem; simp at hmem
  | cons p ps ih =>
      intro acc res h i fs u t hmem huid hin ht
      simp only [foldME, Bind.bind, Except.bind] at h
      cases hs : deletionStep r fig acc p with
      | error e => rw [hs] at h; simp at h
      | ok acc1 =>
          rw [hs] at h
          rcases List.mem_cons.mp hmem with heq | hmem'
          · subst heq
            have hstep : deletionStep r fig acc (i, JVal.obj fs) =
                Except.ok (acc.1 ++ [i], acc.2 ++
                  [{ uid := t.uid,
                     orphanProps := dupdate t.orphanProps fs,
                     hasParent := false }]) := by
              simp [deletionStep, mirrorUid, huid, hin, ht, Bind.bind,
                Except.bind]
            rw [hstep] at hs
            have hacc1 := Except.ok.inj hs
            obtain ⟨tl, htl⟩ := foldME_deletionStep_snd_mono r fig ps acc1 res h
            rw [htl, ← hacc1]
            simp
          · exact ih acc1 res h i fs u t hmem' huid hin ht

theorem pyGet_nonneg (xs : List JVal) (i : Int) (h : 0 ≤ i) :
    pyGet xs i = xs[i.toNat]? := by
  simp [pyGet, h, List.get?_eq_getElem?]

theorem pySet_nonneg (xs : List JVal) (i : Int) (v : JVal) (h0 : 0 ≤ i)
    (hlt : i.toNat < xs.length) :
    pySet xs i v = some (xs.set i.toNat v) := by
  simp [pySet, h0, hlt]

theorem restyleApplyLeaf_store (fs : List (Key × JVal)) (k : Key)
    (tv : JVal) (h1 : tv ≠ .undefined) (h2 : tv ≠ .null) :
    ∃ fs1 ch, restyleApplyLeaf (.obj fs) k tv = (.obj fs1, ch) ∧
      dget fs1 k = some tv ∧
      ∀ kk, kk ≠ k → dget fs1 kk = dget fs kk := by
  by_cases hc : ¬ dmem fs k = true ∨ dget fs k ≠ some tv
  · refine ⟨dset fs k tv, true, ?_, dget_dset_self fs k tv,
      fun kk hkk => dget_dset_ne fs k kk tv hkk⟩
    simp only [restyleApplyLeaf, h1, h2, if_false]
    rw [if_pos hc]
  · have hc2 : dget fs k = some tv := by
      push_neg at hc
      exact hc.2
    refine ⟨fs, false, ?_, hc2, fun _ _ => rfl⟩
    simp only [restyleApplyLeaf, h1, h2, if_false]
    rw [if_neg hc]

theorem restyleApplyLeaf_noop (fs : List (Key × JVal)) (k : Key)
    (tv : JVal) (h1 : tv ≠ .undefined) (h2 : tv ≠ .null)
    (hstored : dget fs k = some tv) :
    restyleApplyLeaf (.obj fs) k tv = (.obj fs, false) := by
  simp only [restyleApplyLeaf, h1, h2, if_false]
  rw [if_neg]
  push_neg
  exact ⟨by simp [dmem, hstored], hstored⟩

theorem list_set_self (xs : List JVal) (n : Nat) (v : JVal)
    (h : xs[n]? = some v) : xs.set n v = xs := by
  induction xs generalizing n with
  | nil => simp at h
  | cons x rest ih =>
      cases n with
      | zero =>
          simp at h
          simp [List.set, h]
      | succ m =>
          simp at h
          simp [List.set, ih m h]

theorem mem_exists_getElem {α : Type} (l : List α) (a : α) (h : a ∈ l) :
    ∃ n : Nat, l[n]? = some a := by
  induction l with
  | nil => simp at h
  | cons x rest ih =>
      rcases List.mem_cons.mp h with h1 | h1
      · exact ⟨0, by simp [h1]⟩
      · obtain ⟨n, hn⟩ := ih h1
        exact ⟨n + 1, by simpa using hn⟩

theorem restyleTraces_cyclic (k : String) (vs : List JVal)
    (hvs : vs ≠ [])
    (hv : ∀ v ∈ vs, v ≠ JVal.undefined ∧ v ≠ JVal.null) :
    ∀ (tis : List Int) (data : List JVal) (i : Nat) (msgVs : List JVal)
      (changed : Bool),
      (∀ t ∈ tis, 0 ≤ t ∧ t < (data.length : Int) ∧
        ∃ fs, data[t.toNat]? = some (JVal.obj fs)) →
      tis.Nodup →
      ∃ data' msgVs' changed',
        restyleTraces [Key.str k] vs data tis i msgVs changed =
          Except.ok (data', msgVs', changed') ∧
        data'.length = data.length ∧
        (∀ j : Nat, ((j : Int) ∉ tis) → data'[j]? = data[j]?) ∧
        (∀ (p : Nat) (t : Int) (fs0 : List (Key × JVal)),
          tis[p]? = some t → data[t.toNat]? = some (JVal.obj fs0) →
          ∃ fs', data'[t.toNat]? = some (JVal.obj fs') ∧
            dget fs' (Key.str k) =
              some (vs.getD ((i + p) % vs.length) JVal.undefined) ∧
            ∀ kk, kk ≠ Key.str k → dget fs' kk = dget fs0 kk) := by
  intro tis
  induction tis with
  | nil =>
      intro data i msgVs changed _ _
      refine ⟨data, msgVs, changed, rfl, rfl, fun _ _ => rfl, ?_⟩
      intro p t fs0 hti
      simp at hti
  | cons ti rest ih =>
      intro data i msgVs changed hb hnd
      obtain ⟨h0, hlt, fs, hfs⟩ := hb ti (List.mem_cons_self _ _)
      have hltn : ti.toNat < data.length := by omega
      have hlen0 : ¬ vs.length = 0 := by
        intro hz
        exact hvs (List.length_eq_zero.mp hz)
      have hmod : i % vs.length < vs.length :=
        Nat.mod_lt _ (Nat.pos_of_ne_zero hlen0)
      obtain ⟨fs1, ch, hleaf, hstore1, hpres1⟩ :=
        restyleApplyLeaf_store fs (Key.str k)
          (vs.get ⟨i % vs.length, hmod⟩)
          (hv _ (List.get_mem vs _ hmod)).1 (hv _ (List.get_mem vs _ hmod)).2
      have hnav : restyleNav (JVal.obj fs) [Key.str k] vs i =
          Except.ok (JVal.obj fs1,
            vs.get ⟨i % vs.length, hmod⟩, ch) := by
        rw [restyleNav, dif_neg hlen0]
        simp only []
        rw [hleaf]
      have hstep : restyleTraces [Key.str k] vs data (ti :: rest) i msgVs
          changed = restyleTraces [Key.str k] vs
            (data.set ti.toNat (JVal.obj fs1)) rest (i + 1)
            (msgVs ++ [vs.get ⟨i % vs.length, hmod⟩]) (changed || ch) := by
        rw [restyleTraces]
        rw [if_neg (by omega)]
        rw [pyGet_nonneg data ti h0, hfs]
        simp only [Bind.bind, Except.bind, hnav]
        rw [pySet_nonneg data ti (JVal.obj fs1) h0 hltn]
      have hrest : ∀ t ∈ rest, 0 ≤ t ∧
          t < ((data.set ti.toNat (JVal.obj fs1)).length : Int) ∧
          ∃ gs, (data.set ti.toNat (JVal.obj fs1))[t.toNat]? =
            some (JVal.obj gs) := by
        intro t htmem
        obtain ⟨t0, tlt, gs, hgs⟩ := hb t (List.mem_cons_of_mem _ htmem)
        have hne : t ≠ ti := by
          intro he
          subst he
          exact (List.nodup_cons.mp hnd).1 htmem
        refine ⟨t0, by simpa using tlt, gs, ?_⟩
        rw [List.getElem?_set_ne (by omega)]
        exact hgs
      obtain ⟨data', msgVs', changed', hrun, hlen, huntouched, hstorep⟩ :=
        ih (data.set ti.toNat (JVal.obj fs1)) (i + 1)
          (msgVs ++ [vs.get ⟨i % vs.length, hmod⟩]) (changed || ch) hrest
          (List.nodup_cons.mp hnd).2
      refine ⟨data', msgVs', changed', by rw [hstep]; exact hrun, ?_, ?_, ?_⟩
      · rw [hlen, List.length_set]
      · intro j hj
        have hj1 : (j : Int) ∉ rest :=
          fun hmem => hj (List.mem_cons_of_mem _ hmem)
        have hj2 : (j : Int) ≠ ti :=
          fun he => hj (he ▸ List.mem_cons_self _ _)
        rw [huntouched j hj1, List.getElem?_set_ne (by omega)]
      · intro p t fs0 hp hfs0
        cases p with
        | zero =>
            have hti_t : ti = t := by simpa using hp
            subst hti_t
            have hfs0' : fs0 = fs := by
              rw [hfs] at hfs0
              exact (JVal.obj.inj (Option.some.inj hfs0)).symm
            subst hfs0'
            have hti_nrest : ti ∉ rest := (List.nodup_cons.mp hnd).1
            refine ⟨fs1, ?_, ?_, hpres1⟩
            · rw [huntouched ti.toNat (by
                  simpa [Int.toNat_of_nonneg h0] using hti_nrest)]
              simp [List.getElem?_set_self, hltn]
            · rw [hstore1]
              have harith : (i + 0) % vs.length = i % vs.length := by
                rw [Nat.add_zero]
              rw [harith]
              simp [List.getD, List.get?_eq_getElem?,
                List.getElem?_eq_getElem hmod]
        | succ p' =>
            have hp' : rest[p']? = some t := by simpa using hp
            have htmem : t ∈ rest := List.getElem?_mem hp'
            have ht0 : 0 ≤ t := (hb t (List.mem_cons_of_mem _ htmem)).1
            have hne : t ≠ ti := by
              intro he
              subst he
              exact (List.nodup_cons.mp hnd).1 htmem
            have hfs0' : (data.set ti.toNat (JVal.obj fs1))[t.toNat]? =
                some (JVal.obj fs0) := by
              rw [List.getElem?_set_ne (by omega)]
              exact hfs0
            obtain ⟨fs', hget, hdg, hpres⟩ := hstorep p' t fs0 hp' hfs0'
            have harith : i + 1 + p' = i + (p' + 1) := by omega
            rw [harith] at hdg
            exact ⟨fs', hget, hdg, hpres⟩

theorem restyleTraces_noop (k : String) (vs : List JVal)
    (hvs : vs ≠ [])
    (hv : ∀ v ∈ vs, v ≠ JVal.undefined ∧ v ≠ JVal.null) :
    ∀ (tis : List Int) (data : List JVal) (i : Nat) (msgVs : List JVal)
      (changed : Bool),
      (∀ t ∈ tis, 0 ≤ t ∧ t < (data.length : Int)) →
      (∀ (p : Nat) (t : Int), tis[p]? = some t →
        ∃ fs, data[t.toNat]? = some (JVal.obj fs) ∧
          dget fs (Key.str k) =
            some (vs.getD ((i + p) % vs.length) JVal.undefined)) →
      ∃ msgVs', restyleTraces [Key.str k] vs data tis i msgVs changed =
        Except.ok (data, msgVs', changed) := by
  intro tis
  induction tis with
  | nil =>
      intro data i msgVs changed _ _
      exact ⟨msgVs, rfl⟩
  | cons ti rest ih =>
      intro data i msgVs changed hb hst
      obtain ⟨h0, hlt⟩ := hb ti (List.mem_cons_self _ _)
      obtain ⟨fs, hfs, hdg⟩ := hst 0 ti (by simp)
      have hlen0 : ¬ vs.length = 0 := by
        intro hz
        exact hvs (List.length_eq_zero.mp hz)
      have hmod : i % vs.length < vs.length :=
        Nat.mod_lt _ (Nat.pos_of_ne_zero hlen0)
      have hdg' : dget fs (Key.str k) =
          some (vs.get ⟨i % vs.length, hmod⟩) := by
        rw [hdg]
        have harith : (i + 0) % vs.length = i % vs.length := by
          rw [Nat.add_zero]
        rw [harith]
        simp [List.getD, List.get?_eq_getElem?,
          List.getElem?_eq_getElem hmod]
      have hleaf : restyleApplyLeaf (JVal.obj fs) (Key.str k)
          (vs.get ⟨i % vs.length, hmod⟩) = (JVal.obj fs, false) :=
        restyleApplyLeaf_noop fs (Key.str k) _
          (hv _ (List.get_mem vs _ hmod)).1
          (hv _ (List.get_mem vs _ hmod)).2 hdg'
      have hnav : restyleNav (JVal.obj fs) [Key.str k] vs i =
          Except.ok (JVal.obj fs,
            vs.get ⟨i % vs.length, hmod⟩, false) := by
        rw [restyleNav, dif_neg hlen0]
        simp only []
        rw [hleaf]
      have hltn : ti.toNat < data.length := by omega
      have hstep : restyleTraces [Key.str k] vs data (ti :: rest) i msgVs
          changed = restyleTraces [Key.str k] vs data rest (i + 1)
            (msgVs ++ [vs.get ⟨i % vs.length, hmod⟩]) changed := by
        rw [restyleTraces]
        rw [if_neg (by omega)]
        rw [pyGet_nonneg data ti h0, hfs]
        simp only [Bind.bind, Except.bind, hnav]
        rw [pySet_nonneg data ti (JVal.obj fs) h0 hltn]
        rw [list_set_self data ti.toNat (JVal.obj fs) hfs]
        rw [Bool.or_false]
      obtain ⟨msgVs', hrun⟩ :=
        ih data (i + 1) (msgVs ++ [vs.get ⟨i % vs.length, hmod⟩]) changed
          (fun t ht => hb t (List.mem_cons_of_mem _ ht))
          (by
            intro p t hp
            obtain ⟨gs, hgs, hgd⟩ := hst (p + 1) t (by simpa using hp)
            have harith : i + (p + 1) = i + 1 + p := by omega
            rw [harith] at hgd
            exact ⟨gs, hgs, hgd⟩)
      exact ⟨msgVs', by rw [hstep]; exact hrun⟩

theorem performRestyleKey_eq (data : List JVal)
    (rd : List (String × JVal)) (k : String) (v : JVal)
    (tis : List Int) (hund : strStartsWith k "_" = false) :
    performRestyleKey data rd k v tis =
      match restyleTraces (strToDictPath k) (restyleValueList v) data tis
          0 [] false with
      | Except.error e => Except.error e
      | Except.ok (data1, msgVs, changed) =>
          Except.ok (data1,
            if changed then sset rd k (JVal.arr msgVs) else rd) := by
  cases v <;>
    simp [performRestyleKey, restyleValueList, hund, JVal.isArr,
      JVal.isObj, Bind.bind, Except.bind] <;>
    (cases hres : restyleTraces (strToDictPath k) _ data tis 0 [] false <;>
      simp [hres])

theorem foldRestyle_stores (tis : List Int) (hnd : tis.Nodup) :
    ∀ (style : List (String × JVal)) (data : List JVal)
      (rd0 : List (String × JVal)),
      (∀ kv ∈ style, strToDictPath kv.1 = [Key.str kv.1] ∧
        strStartsWith kv.1 "_" = false) →
      (style.map Prod.fst).Nodup →
      (∀ kv ∈ style, restyleValueList kv.2 ≠ [] ∧
        ∀ v ∈ restyleValueList kv.2,
          v ≠ JVal.undefined ∧ v ≠ JVal.null) →
      (∀ t ∈ tis, 0 ≤ t ∧ t < (data.length : Int) ∧
        ∃ fs, data[t.toNat]? = some (JVal.obj fs)) →
      ∃ data1 rd1,
        foldME (fun acc kv => performRestyleKey acc.1 acc.2 kv.1 kv.2 tis)
          (data, rd0) style = Except.ok (data1, rd1) ∧
        data1.length = data.length ∧
        (∀ (j : Nat) (fs : List (Key × JVal)),
          data[j]? = some (JVal.obj fs) →
          ∃ fs1, data1[j]? = some (JVal.obj fs1) ∧
            ∀ kk, (∀ kv ∈ style, kk ≠ Key.str kv.1) →
              dget fs1 kk = dget fs kk) ∧
        (∀ kv ∈ style, ∀ (p : Nat) (t : Int), tis[p]? = some t →
          ∃ fs, data1[t.toNat]? = some (JVal.obj fs) ∧
            dget fs (Key.str kv.1) =
              some ((restyleValueList kv.2).getD
                (p % (restyleValueList kv.2).length) JVal.undefined)) := by
  intro style
  induction style with
  | nil =>
      intro data rd0 _ _ _ _
      exact ⟨data, rd0, rfl, rfl,
        fun j fs h => ⟨fs, h, fun _ _ => rfl⟩, by simp⟩
  | cons kv0 rest ih =>
      intro data rd0 hkeys hnk hvals hb
      obtain ⟨k, v⟩ := kv0
      obtain ⟨hk, hund⟩ := hkeys (k, v) (List.mem_cons_self _ _)
      obtain ⟨hvne, hvgood⟩ := hvals (k, v) (List.mem_cons_self _ _)
      obtain ⟨dataA, msgVs, changed, hrunA, hlenA, huntA, hstA⟩ :=
        restyleTraces_cyclic k (restyleValueList v) hvne hvgood tis data
          0 [] false hb hnd
      have hkeyA : performRestyleKey data rd0 k v tis =
          Except.ok (dataA,
            if changed then sset rd0 k (JVal.arr msgVs) else rd0) := by
        rw [performRestyleKey_eq data rd0 k v tis hund, hk, hrunA]
      have hbA : ∀ t ∈ tis, 0 ≤ t ∧ t < (dataA.length : Int) ∧
          ∃ fs, dataA[t.toNat]? = some (JVal.obj fs) := by
        intro t ht
        obtain ⟨t0, tlt, fs0, hfs0⟩ := hb t ht
        obtain ⟨p, hp⟩ := mem_exists_getElem tis t ht
        obtain ⟨fsA, hfsA, _, _⟩ := hstA p t fs0 hp hfs0
        exact ⟨t0, by rw [hlenA]; exact tlt, fsA, hfsA⟩
      have hnk' : (rest.map Prod.fst).Nodup :=
        (List.nodup_cons.mp (by simpa using hnk)).2
      obtain ⟨data1, rd1, hrunR, hlenR, hpresR, hstR⟩ :=
        ih dataA (if changed then sset rd0 k (JVal.arr msgVs) else rd0)
          (fun kv' h => hkeys kv' (List.mem_cons_of_mem _ h)) hnk'
          (fun kv' h => hvals kv' (List.mem_cons_of_mem _ h)) hbA
      have hknotin : ∀ kv' ∈ rest, Key.str k ≠ Key.str kv'.1 := by
        intro kv' h he
        have hkk : k = kv'.1 := Key.str.inj he
        have hknr : k ∉ rest.map Prod.fst :=
          (List.nodup_cons.mp (by simpa using hnk)).1
        exact hknr (hkk ▸ List.mem_map_of_mem Prod.fst h)
      refine ⟨data1, rd1, ?_, hlenR.trans hlenA, ?_, ?_⟩
      · simp [foldME, hkeyA, Bind.bind, Except.bind, hrunR]
      · intro j fs hj
        by_cases hjm : (j : Int) ∈ tis
        · obtain ⟨p, hp⟩ := mem_exists_getElem tis _ hjm
          have hjt : ((j : Int)).toNat = j := by simp
          obtain ⟨fsA, hfsA, _, hpresA⟩ :=
            hstA p _ fs hp (by rw [hjt]; exact hj)
          rw [hjt] at hfsA
          obtain ⟨fs1, hfs1, hpres1⟩ := hpresR j fsA hfsA
          refine ⟨fs1, hfs1, ?_⟩
          intro kk hkk
          rw [hpres1 kk (fun kv' h => hkk kv' (List.mem_cons_of_mem _ h)),
            hpresA kk (hkk (k, v) (List.mem_cons_self _ _))]
        · have hjA : dataA[j]? = some (JVal.obj fs) := by
            rw [huntA j hjm]
            exact hj
          obtain ⟨fs1, hfs1, hpres1⟩ := hpresR j fs hjA
          exact ⟨fs1, hfs1, fun kk hkk =>
            hpres1 kk (fun kv' h => hkk kv' (List.mem_cons_of_mem _ h))⟩
      · intro kv' hkv' p t hp
        rcases List.mem_cons.mp hkv' with he | hmem
        · subst he
          obtain ⟨_, _, fs0, hfs0⟩ := hb t (List.getElem?_mem hp)
          obtain ⟨fsA, hfsA, hdgA, _⟩ := hstA p t fs0 hp hfs0
          obtain ⟨fs1, hfs1, hpres1⟩ := hpresR t.toNat fsA hfsA
          refine ⟨fs1, hfs1, ?_⟩
          rw [hpres1 (Key.str k) hknotin, hdgA]
          rw [Nat.zero_add]
        · exact hstR kv' hmem p t hp

theorem foldRestyle_noop (tis : List Int) :
    ∀ (style : List (String × JVal)) (data : List JVal)
      (rd0 : List (String × JVal)),
      (∀ kv ∈ style, strToDictPath kv.1 = [Key.str kv.1] ∧
        strStartsWith kv.1 "_" = false) →
      (∀ kv ∈ style, restyleValueList kv.2 ≠ [] ∧
        ∀ v ∈ restyleValueList kv.2,
          v ≠ JVal.undefined ∧ v ≠ JVal.null) →
      (∀ t ∈ tis, 0 ≤ t ∧ t < (data.length : Int)) →
      (∀ kv ∈ style, ∀ (p : Nat) (t : Int), tis[p]? = some t →
        ∃ fs, data[t.toNat]? = some (JVal.obj fs) ∧
          dget fs (Key.str kv.1) =
            some ((restyleValueList kv.2).getD
              (p % (restyleValueList kv.2).length) JVal.undefined)) →
      foldME (fun acc kv => performRestyleKey acc.1 acc.2 kv.1 kv.2 tis)
        (data, rd0) style = Except.ok (data, rd0) := by
  intro style
  induction style with
  | nil => intro data rd0 _ _ _ _; rfl
  | cons kv0 rest ih =>
      intro data rd0 hkeys hvals hb hst
      obtain ⟨k, v⟩ := kv0
      obtain ⟨hk, hund⟩ := hkeys (k, v) (List.mem_cons_self _ _)
      obtain ⟨hvne, hvgood⟩ := hvals (k, v) (List.mem_cons_self _ _)
      obtain ⟨msgVs, hrun⟩ :=
        restyleTraces_noop k (restyleValueList v) hvne hvgood tis data 0
          [] false hb
          (by
            intro p t hp
            obtain ⟨fs, hfs, hdg⟩ := hst (k, v) (List.mem_cons_self _ _) p t hp
            refine ⟨fs, hfs, ?_⟩
            rw [hdg, Nat.zero_add])
      have hkeyA : performRestyleKey data rd0 k v tis =
          Except.ok (data, rd0) := by
        rw [performRestyleKey_eq data rd0 k v tis hund, hk, hrun]
        simp
      have hrest := ih data rd0
        (fun kv' h => hkeys kv' (List.mem_cons_of_mem _ h))
        (fun kv' h => hvals kv' (List.mem_cons_of_mem _ h)) hb
        (fun kv' h => hst kv' (List.mem_cons_of_mem _ h))
      simp [foldME, hkeyA, Bind.bind, Except.bind, hrest]

/-! ## Claim theorems -/

/-- C1: in `_perform_restyle_dict` (basedatatypes.py:348-414), for a
simple (single-segment, non-underscore) property key applied over a
selected list of distinct in-range trace indexes, a plain non-list scalar
patch value is stored identically into every selected trace, while a list
patch value of length m stores into the p-th selected trace the element
at position p mod m (so a 2-element list over 3 selected traces yields
the pattern [v0, v1, v0]). -/
theorem c1_restyle_broadcast_and_cycle (k : String) (s : JVal)
    (vs : List JVal) (data : List JVal) (tis : List Int)
    (hk : strToDictPath k = [Key.str k])
    (hund : strStartsWith k "_" = false)
    (hs : s.isArr = false) (hs1 : s ≠ .undefined) (hs2 : s ≠ .null)
    (hvs : vs ≠ [])
    (hv : ∀ v ∈ vs, v ≠ JVal.undefined ∧ v ≠ JVal.null)
    (hb : ∀ t ∈ tis, 0 ≤ t ∧ t < (data.length : Int) ∧
      ∃ fs, data[t.toNat]? = some (JVal.obj fs))
    (hnd : tis.Nodup) :
    (∃ dataS rdS,
      performRestyleDict data [(k, s)] tis = Except.ok (dataS, rdS) ∧
      ∀ (p : Nat) (t : Int), tis[p]? = some t →
        ∃ fs, dataS[t.toNat]? = some (JVal.obj fs) ∧
          dget fs (Key.str k) = some s) ∧
    (∃ dataL rdL,
      performRestyleDict data [(k, JVal.arr vs)] tis =
        Except.ok (dataL, rdL) ∧
      ∀ (p : Nat) (t : Int), tis[p]? = some t →
        ∃ fs, dataL[t.toNat]? = some (JVal.obj fs) ∧
          dget fs (Key.str k) =
            some (vs.getD (p % vs.length) JVal.undefined)) := by
  constructor
  · obtain ⟨data', msgVs', changed', hrun, hlen, hun, hst⟩ :=
      restyleTraces_cyclic k [s] (by simp)
        (by
          intro v hmem
          simp at hmem
          subst hmem
          exact ⟨hs1, hs2⟩) tis data 0 [] false hb hnd
    refine ⟨data',
      if changed' then sset [] k (JVal.arr msgVs') else [], ?_, ?_⟩
    · simp [performRestyleDict, foldME, performRestyleKey, hund, hk, hs,
        hrun, Bind.bind, Except.bind, JVal.isObj]
    · intro p t hp
      obtain ⟨_, _, fs0, hfs0⟩ := hb t (List.getElem?_mem hp)
      obtain ⟨fs, hget, hdg, _⟩ := hst p t fs0 hp hfs0
      refine ⟨fs, hget, ?_⟩
      simpa [Nat.mod_one, List.getD] using hdg
  · obtain ⟨data', msgVs', changed', hrun, hlen, hun, hst⟩ :=
      restyleTraces_cyclic k vs hvs hv tis data 0 [] false hb hnd
    refine ⟨data',
      if changed' then sset [] k (JVal.arr msgVs') else [], ?_, ?_⟩
    · simp [performRestyleDict, foldME, performRestyleKey, hund, hk,
        JVal.isArr, hrun, Bind.bind, Except.bind, JVal.isObj]
    · intro p t hp
      obtain ⟨_, _, fs0, hfs0⟩ := hb t (List.getElem?_mem hp)
      obtain ⟨fs, hget, hdg, _⟩ := hst p t fs0 hp hfs0
      refine ⟨fs, hget, ?_⟩
      simpa [Nat.zero_add] using hdg

/-- Concrete run of the broadcast/cycle property: key "opacity", scalar
7, list [1, 2], over the three traces of `figEx3`. -/
theorem c1_witness :
    (∃ dataS rdS,
      performRestyleDict figEx3.data [("opacity", JVal.i 7)] [0, 1, 2] =
        Except.ok (dataS, rdS) ∧
      ∀ (p : Nat) (t : Int), [(0 : Int), 1, 2][p]? = some t →
        ∃ fs, dataS[t.toNat]? = some (JVal.obj fs) ∧
          dget fs (Key.str "opacity") = some (JVal.i 7)) ∧
    (∃ dataL rdL,
      performRestyleDict figEx3.data
          [("opacity", JVal.arr [JVal.i 1, JVal.i 2])] [0, 1, 2] =
        Except.ok (dataL, rdL) ∧
      ∀ (p : Nat) (t : Int), [(0 : Int), 1, 2][p]? = some t →
        ∃ fs, dataL[t.toNat]? = some (JVal.obj fs) ∧
          dget fs (Key.str "opacity") =
            some ([JVal.i 1, JVal.i 2].getD (p % 2) JVal.undefined)) :=
  c1_restyle_broadcast_and_cycle "opacity" (JVal.i 7)
    [JVal.i 1, JVal.i 2] figEx3.data [0, 1, 2]
    (by decide) (by decide) (by decide) (by decide) (by decide)
    (by decide)
    (by
      intro v hmem
      simp at hmem
      rcases hmem with h | h
      all_goals subst h
      all_goals exact ⟨by decide, by decide⟩)
    (by
      intro t ht
      fin_cases ht
      · exact ⟨by decide, by decide, [(Key.str "uid", JVal.s "a")], rfl⟩
      · exact ⟨by decide, by decide, [(Key.str "uid", JVal.s "b")], rfl⟩
      · exact ⟨by decide, by decide, [(Key.str "uid", JVal.s "c")], rfl⟩)
    (by decide)


/-- C10: `_send_restyle_msg` increments the restyle AND the relayout
sequence counters, stamps both `_restyle_msg_id` and `_relayout_msg_id`
onto the outgoing style patch, and sets both in-process flags; therefore
a callback handed to `on_relayout_completed` right after such a send is
queued instead of run immediately. -/
theorem c10_restyle_send_bumps_both_counters (fig : Figure)
    (style : List (String × JVal)) (tis : List Int) (cb : Nat) :
    ∃ stamped,
      (sendRestyleMsg fig style tis).msgs =
        fig.msgs ++ [Msg.restyle stamped tis] ∧
      sget stamped "_restyle_msg_id" =
        some (.i (fig.lastRestyleMsgId + 1)) ∧
      sget stamped "_relayout_msg_id" =
        some (.i (fig.lastRelayoutMsgId + 1)) ∧
      (sendRestyleMsg fig style tis).lastRestyleMsgId =
        fig.lastRestyleMsgId + 1 ∧
      (sendRestyleMsg fig style tis).lastRelayoutMsgId =
        fig.lastRelayoutMsgId + 1 ∧
      (sendRestyleMsg fig style tis).restyleInProcess = true ∧
      (sendRestyleMsg fig style tis).relayoutInProcess = true ∧
      ((sendRestyleMsg fig style tis).onRelayoutCompleted cb).2 = false ∧
      (((sendRestyleMsg fig style tis).onRelayoutCompleted cb).1).waitingRelayoutCallbacks =
        (sendRestyleMsg fig style tis).waitingRelayoutCallbacks ++ [cb] := by
  refine ⟨sset (sset style "_relayout_msg_id" (.i (fig.lastRelayoutMsgId + 1)))
      "_restyle_msg_id" (.i (fig.lastRestyleMsgId + 1)),
      ?_, ?_, ?_, ?_, ?_, ?_, ?_, ?_, ?_⟩
  · simp [sendRestyleMsg]
  · exact sget_sset_self _ _ _
  · rw [sget_sset_ne _ _ _ _ (by decide)]
    exact sget_sset_self _ _ _
  · simp [sendRestyleMsg]
  · simp [sendRestyleMsg]
  · simp [sendRestyleMsg]
  · simp [sendRestyleMsg]
  · simp [sendRestyleMsg, Figure.onRelayoutCompleted]
  · simp [sendRestyleMsg, Figure.onRelayoutCompleted]

/-- C7: `build_validators_py` emits, for a node whose dotted path is
exactly "layout.image.source", a validator whose base class is the
image-uri base, regardless of the node's declared value kind. -/
theorem c7_layout_image_source_uses_imageuri_base (pd : String)
    (cds : List PlotlyNode) (ens : List (String × PlotlyNode))
    (res : List EmittedValidator) (n : PlotlyNode)
    (hbuild : buildValidatorsPy pd cds ens = some res)
    (hmem : n ∈ cds) (hpath : n.dirStr = "layout.image.source") :
    name_base_validator n = "ImageUriValidator" ∧
    ∃ ev ∈ res, ev.className = n.nameValidator ∧
      ev.baseName = "ImageUriValidator" := by
  have hbase : name_base_validator n = "ImageUriValidator" := by
    simp [name_base_validator, custom_validator_datatypes, aget, hpath]
  refine ⟨hbase, ?_⟩
  simp only [buildValidatorsPy] at hbuild
  by_cases hempty : cds ++ (ens.filter (fun p => strStartsWith p.1 pd)).map (·.2) = []
  · rw [if_pos hempty] at hbuild
    exact absurd hbuild (by simp)
  · rw [if_neg hempty] at hbuild
    have hres := Option.some.inj hbuild
    subst hres
    refine ⟨_, List.mem_map_of_mem _ (List.mem_append_left _ hmem), rfl, ?_⟩
    simp [emitValidatorFor, hbase]

/-- C7 witness: the concrete node `nodeExSource` (declared kind "string")
at path "layout.image.source". -/
theorem c7_witness :
    buildValidatorsPy "layout.image" [nodeExSource] [] =
      some [emitValidatorFor none nodeExSource] ∧
    nodeExSource ∈ [nodeExSource] ∧
    nodeExSource.dirStr = "layout.image.source" ∧
    name_base_validator nodeExSource = "ImageUriValidator" ∧
    ∃ ev ∈ [emitValidatorFor none nodeExSource],
      ev.className = nodeExSource.nameValidator ∧
      ev.baseName = "ImageUriValidator" := by
  refine ⟨by decide, by decide, by decide, ?_, ?_⟩
  · exact (c7_layout_image_source_uses_imageuri_base "layout.image"
      [nodeExSource] [] [emitValidatorFor none nodeExSource] nodeExSource
      (by decide) (by decide) (by decide)).1
  · exact (c7_layout_image_source_uses_imageuri_base "layout.image"
      [nodeExSource] [] [emitValidatorFor none nodeExSource] nodeExSource
      (by decide) (by decide) (by decide)).2

/-- C8 (failing input): `_perform_restyle_dict` receives a dict patch
value for the key "marker" on a one-trace figure.  The source wraps any
non-list value into a one-element list before its dict test, so the
"Restyling objects not supported, only individual properties" raise is
unreachable: the whole dict is silently stored as the property value and
reported in the outgoing restyle data instead of raising InvalidInput. -/
theorem c8_dict_patch_value_not_rejected :
    performRestyleDict [JVal.obj []]
      [("marker", JVal.obj [(Key.str "color", JVal.s "red")])] [0] =
      .ok ([JVal.obj [(Key.str "marker",
              JVal.obj [(Key.str "color", JVal.s "red")])]],
           [("marker",
             JVal.arr [JVal.obj [(Key.str "color", JVal.s "red")]])]) := by
  decide

/-- C9: calling `add_traces` while a batch context is open raises, but
first clears both batch accumulators; the figure is otherwise untouched,
and the subsequent exit of the batch context flushes nothing (it emits no
message and only resets the batch flag). -/
theorem c9_add_traces_in_batch_discards_accumulators (fig : Figure)
    (ts : List Trace) (freshUids : Nat → String)
    (hb : fig.inBatchMode = true) :
    (fig.addTraces ts freshUids).2 = .error .batchAddTraces ∧
    (fig.addTraces ts freshUids).1 =
      { fig with batchStyleCommands := [], batchLayoutCommands := [] } ∧
    batchUpdateExit (fig.addTraces ts freshUids).1 =
      .ok { fig with batchStyleCommands := [], batchLayoutCommands := [],
                     inBatchMode := false } := by
  refine ⟨?_, ?_, ?_⟩
  · simp [Figure.addTraces, hb]
  · simp [Figure.addTraces, hb]
  · simp [Figure.addTraces, hb, batchUpdateExit, sendBatchUpdate,
      buildUpdateParamsFromBatch, Figure.update, performUpdateDict,
      isFalsyDict, sortByLe, nubFirst, nubFirstAux, Bind.bind, Except.bind]

/-- C9 witness: a two-trace figure in batch mode with one pending style
write and one pending layout write. -/
theorem c9_witness :
    (figBatchEx.addTraces [] (fun _ => "u")).2 = .error .batchAddTraces ∧
    (figBatchEx.addTraces [] (fun _ => "u")).1 =
      { figBatchEx with batchStyleCommands := [], batchLayoutCommands := [] } ∧
    batchUpdateExit (figBatchEx.addTraces [] (fun _ => "u")).1 =
      .ok { figBatchEx with
              batchStyleCommands := []
              batchLayoutCommands := []
              inBatchMode := false } :=
  c9_add_traces_in_batch_discards_accumulators figBatchEx [] (fun _ => "u")
    (by rfl)

/-- C2: assigning `figure.data` a sequence containing a uid not among the
current mirror uids raises InvalidInput naming the offending uid(s), and a
sequence with a repeated uid raises InvalidInput naming the duplicates; in
the source both raises precede any state mutation, which the embedding
mirrors by failing without producing a successor state, so no trace is
added. -/
theorem c2_data_assignment_validation (fig : Figure) (newData : List Trace)
    (origUids : List String)
    (huids : mapME mirrorUid fig.data = Except.ok origUids) :
    ((∃ u ∈ newData.map Trace.uid, u ∉ origUids) →
      ∃ bad, fig.setData newData = .error (.invalidUids bad) ∧
        ∀ u ∈ newData.map Trace.uid, u ∉ origUids → u ∈ bad) ∧
    ((∀ u ∈ newData.map Trace.uid, u ∈ origUids) →
      (∃ u, 1 < (newData.map Trace.uid).count u) →
      ∃ dups, fig.setData newData = .error (.duplicateUids dups) ∧
        ∀ u, 1 < (newData.map Trace.uid).count u → u ∈ dups) := by
  constructor
  · rintro ⟨u, humem, hnot⟩
    have hne : invalidUidsOf origUids (newData.map Trace.uid) ≠ [] := by
      intro hnil
      have hu := (mem_invalidUidsOf origUids (newData.map Trace.uid) u).mpr
        ⟨humem, hnot⟩
      rw [hnil] at hu
      simp at hu
    refine ⟨invalidUidsOf origUids (newData.map Trace.uid), ?_, ?_⟩
    · simp only [Figure.setData, huids, Bind.bind, Except.bind]
      rw [if_pos hne]
    · intro u' h1 h2
      exact (mem_invalidUidsOf origUids (newData.map Trace.uid) u').mpr
        ⟨h1, h2⟩
  · rintro hall ⟨u, hcount⟩
    have humem : u ∈ newData.map Trace.uid :=
      List.count_pos_iff.mp (Nat.lt_trans Nat.zero_lt_one hcount)
    have hinv : invalidUidsOf origUids (newData.map Trace.uid) = [] :=
      invalidUidsOf_eq_nil _ _ hall
    have hdupne : duplicateUidsOf (newData.map Trace.uid) ≠ [] := by
      intro hnil
      have hu := (mem_duplicateUidsOf (newData.map Trace.uid) u).mpr
        ⟨humem, hcount⟩
      rw [hnil] at hu
      simp at hu
    refine ⟨duplicateUidsOf (newData.map Trace.uid), ?_, ?_⟩
    · simp only [Figure.setData, huids, Bind.bind, Except.bind]
      rw [if_neg (by simp [hinv]), if_pos hdupne]
      rfl
    · intro u' hcount'
      have humem' : u' ∈ newData.map Trace.uid :=
        List.count_pos_iff.mp (Nat.lt_trans Nat.zero_lt_one hcount')
      exact (mem_duplicateUidsOf (newData.map Trace.uid) u').mpr
        ⟨humem', hcount'⟩

/-- C2 witness: assigning a foreign uid "c" to the example figure, and
assigning the same trace twice. -/
theorem c2_witness :
    (∃ bad, figEx.setData
        [traceExA, { uid := "c", orphanProps := [], hasParent := false }] =
        .error (.invalidUids bad) ∧ "c" ∈ bad) ∧
    (∃ dups, figEx.setData [traceExA, traceExA] =
        .error (.duplicateUids dups) ∧ "a" ∈ dups) := by
  constructor
  · obtain ⟨bad, h1, h2⟩ := (c2_data_assignment_validation figEx
      [traceExA, { uid := "c", orphanProps := [], hasParent := false }]
      ["a", "b"] (by decide)).1 ⟨"c", by decide, by decide⟩
    exact ⟨bad, h1, h2 "c" (by decide) (by decide)⟩
  · obtain ⟨dups, h1, h2⟩ := (c2_data_assignment_validation figEx
      [traceExA, traceExA] ["a", "b"] (by decide)).2
      (by decide) ⟨"a", by decide⟩
    exact ⟨dups, h1, h2 "a" (by decide)⟩

/-- C6: on the layout, setting a subplot property name with integer
suffix 0 or 1 (`xaxis0`, `xaxis1`) is rejected (the source's TypeError;
the spec's InvalidInput kind), while a suffix of 2 is accepted: a
dedicated validator is registered under the exact suffixed name, the
(reparented) child is stored in the subplot side table and addressable
under "xaxis2", and every entry for the unsuffixed "xaxis" is
untouched. -/
theorem c6_subplot_suffix_rules (l : LayoutObj) (v : PlotlyChild)
    (hval : aget l.validators "xaxis2" = none)
    (hcomp : aget l.compoundProps "xaxis2" = none)
    (hpar : v.hasParent = false) :
    layoutSetattr l "xaxis0" v =
      .subplot (.error (.subplotSuffix "xaxis0")) ∧
    layoutSetattr l "xaxis1" v =
      .subplot (.error (.subplotSuffix "xaxis1")) ∧
    ∃ l', layoutSetattr l "xaxis2" v = .subplot (.ok l') ∧
      aget l'.validators "xaxis2" =
        some { base := "xaxis", propName := "xaxis2" } ∧
      layoutGetattr l' "xaxis2" =
        .ok { v with hasParent := true, props := [] } ∧
      aget l'.validators "xaxis" = aget l.validators "xaxis" ∧
      aget l'.compoundProps "xaxis" = aget l.compoundProps "xaxis" ∧
      aget l'.subplotidProps "xaxis" = aget l.subplotidProps "xaxis" := by
  refine ⟨rfl, rfl, ?_⟩
  have hm : subplotidMatch "xaxis2" = some ("xaxis", "2") := by rfl
  have hd : digitsToNat ['2'] = 2 := by rfl
  have hrun : setSubplotidProp l "xaxis2" v =
      Except.ok (layoutAfterXaxis2 l v) := by
    simp [setSubplotidProp, hm, hd, setCompoundProp, childPropsStandalone,
      hval, hcomp, hpar, Bind.bind, Except.bind, layoutAfterXaxis2]
  refine ⟨layoutAfterXaxis2 l v, ?_, ?_, ?_, ?_, ?_, ?_⟩
  · show SetattrOutcome.subplot (setSubplotidProp l "xaxis2" v) = _
    rw [hrun]
  · exact aget_aset_self _ _ _
  · simp [layoutGetattr, layoutAfterXaxis2, aget_aset_self]
  · exact aget_aset_ne _ _ _ _ (by decide)
  · exact aget_aset_ne _ _ _ _ (by decide)
  · exact aget_aset_ne _ _ _ _ (by decide)

/-- C6 witness: the fresh standalone layout and a standalone axis
child. -/
theorem c6_witness :
    layoutSetattr layoutEx "xaxis0" childEx =
      .subplot (.error (.subplotSuffix "xaxis0")) ∧
    layoutSetattr layoutEx "xaxis1" childEx =
      .subplot (.error (.subplotSuffix "xaxis1")) ∧
    ∃ l', layoutSetattr layoutEx "xaxis2" childEx = .subplot (.ok l') ∧
      aget l'.validators "xaxis2" =
        some { base := "xaxis", propName := "xaxis2" } ∧
      layoutGetattr l' "xaxis2" =
        .ok { childEx with hasParent := true, props := [] } ∧
      aget l'.validators "xaxis" = aget layoutEx.validators "xaxis" ∧
      aget l'.compoundProps "xaxis" =
        aget layoutEx.compoundProps "xaxis" ∧
      aget l'.subplotidProps "xaxis" =
        aget layoutEx.subplotidProps "xaxis" :=
  c6_subplot_suffix_rules layoutEx childEx (by rfl) (by rfl) (by rfl)

/-- C3 counterexample: assigning the example figure its own two traces in
their current order is an assignment of a pure reordering of its current
traces (the identity permutation), yet the data setter emits NO
move-traces message (the figure, message log included, is unchanged), so
"exactly one move-traces message" does not hold for every pure
reordering. -/
theorem c3_counterexample :
    figEx.setData [traceExA, traceExB] = .ok (figEx, []) ∧
    figEx.msgs = [] := by
  constructor
  · decide
  · rfl

/-- C3 (amended): assigning `figure.data` a pure reordering of its own
current traces (same uids, no additions or removals) whose relative order
actually changed emits exactly one move-traces message carrying the
old-index list and the requested new-index permutation (`newInds`, the
position of each current uid in the assigned order), emits no
delete-traces message, and leaves the live trace sequence equal to the
caller-supplied order. -/
theorem c3_reorder_emits_one_move (fig : Figure) (newData : List Trace)
    (origUids : List String) (newInds : List Nat)
    (huids : mapME mirrorUid fig.data = Except.ok origUids)
    (hnodup : origUids.Nodup)
    (hperm : (newData.map Trace.uid).Perm origUids)
    (hinds : newIndsOf (newData.map Trace.uid) origUids =
      Except.ok newInds)
    (hchange : newInds ≠ List.range fig.data.length) :
    (fig.setData newData).map
        (fun r => (r.1.msgs, r.1.dataObjs, r.2)) =
      Except.ok (fig.msgs ++
          [Msg.moveTraces (List.range fig.data.length) newInds],
        newData, ([] : List Trace)) := by
  have hlen : origUids.length = fig.data.length :=
    mapME_ok_length mirrorUid fig.data origUids huids
  have hnd2 : (newData.map Trace.uid).Nodup := hperm.nodup_iff.mpr hnodup
  have hinv : invalidUidsOf origUids (newData.map Trace.uid) = [] :=
    invalidUidsOf_eq_nil _ _ (fun u hu => hperm.mem_iff.mp hu)
  have hdup : duplicateUidsOf (newData.map Trace.uid) = [] :=
    duplicateUidsOf_eq_nil _ hnd2
  have hrem : removeUidsOf origUids (newData.map Trace.uid) = [] :=
    removeUidsOf_eq_nil _ _ (fun u hu => hperm.mem_iff.mpr hu)
  have hdel : computeDeletions [] fig = Except.ok ([], []) :=
    computeDeletions_nilRemove fig origUids huids
  have hndlen : newInds.length = fig.data.length := by
    rw [← hlen]
    exact mapME_ok_length _ origUids newInds hinds
  have hcond : ((newInds.zip (List.range fig.data.length)).all
      (fun p => p.1 == p.2)) = false := by
    cases hb : ((newInds.zip (List.range fig.data.length)).all
        (fun p => p.1 == p.2)) with
    | false => rfl
    | true =>
        exact absurd ((zip_all_eq_iff newInds (List.range fig.data.length)
          (by simp [hndlen])).mp hb) hchange
  simp only [Figure.setData, huids, Bind.bind, Except.bind, hinv, hdup,
    hrem, hdel, hinds, eraseIdxs_nil, hcond, Except.map]
  simp [pure, Except.pure]

/-- C3 witness (for the amended claim): swapping the example figure's two
traces emits exactly the move-traces message `[0,1] -> [1,0]`. -/
theorem c3_witness :
    (figEx.setData [traceExB, traceExA]).map
        (fun r => (r.1.msgs, r.1.dataObjs, r.2)) =
      Except.ok (figEx.msgs ++
          [Msg.moveTraces (List.range figEx.data.length) [1, 0]],
        [traceExB, traceExA], ([] : List Trace)) :=
  c3_reorder_emits_one_move figEx [traceExB, traceExA] ["a", "b"] [1, 0]
    (by decide) (by decide) (by decide) (by decide) (by decide)

/-- C5: removing a trace by assigning `figure.data` without it preserves
that trace's last-known mirror data as its orphan snapshot (readable as
its `_props` once parentless) and clears its parent back-reference.  The
removed live object survives in the source only through caller-held
references; the embedding returns it among the setter's orphans. -/
theorem c5_removed_trace_orphaned (fig : Figure) (newData : List Trace)
    (i : Nat) (fs : List (Key × JVal)) (u : String) (t : Trace)
    (fig' : Figure) (orphans : List Trace)
    (hok : fig.setData newData = Except.ok (fig', orphans))
    (hmirror : fig.data[i]? = some (JVal.obj fs))
    (huid : dget fs (.str "uid") = some (.s u))
    (hnot : u ∉ newData.map Trace.uid)
    (ht : fig.dataObjs[i]? = some t)
    (hclean : t.orphanProps = [])
    (hkeys : (fs.map Prod.fst).Nodup) :
    { uid := t.uid, orphanProps := fs, hasParent := false } ∈ orphans ∧
    Trace.orphanView
      { uid := t.uid, orphanProps := fs, hasParent := false } = some fs := by
  have hview : Trace.orphanView
      { uid := t.uid, orphanProps := fs, hasParent := false } = some fs := by
    simp [Trace.orphanView]
  refine ⟨?_, hview⟩
  simp only [Figure.setData, Bind.bind, Except.bind] at hok
  cases hm : mapME mirrorUid fig.data with
  | error e => rw [hm] at hok; simp at hok
  | ok origUids =>
      rw [hm] at hok
      simp only [] at hok
      by_cases hinv : invalidUidsOf origUids (newData.map Trace.uid) ≠ []
      · rw [if_pos hinv] at hok; simp at hok
      · rw [if_neg hinv] at hok
        simp only [pure, Except.pure] at hok
        by_cases hdup : duplicateUidsOf (newData.map Trace.uid) ≠ []
        · rw [if_pos hdup] at hok; simp at hok
        · rw [if_neg hdup] at hok
          cases hcd : computeDeletions
              (removeUidsOf origUids (newData.map Trace.uid)) fig with
          | error e => rw [hcd] at hok; simp at hok
          | ok accres =>
              rw [hcd] at hok
              rcases accres with ⟨dis, orphs⟩
              simp only [] at hok
              cases hni : newIndsOf (newData.map Trace.uid)
                  (eraseIdxs origUids dis) with
              | error e => rw [hni] at hok; simp at hok
              | ok ninds =>
                  rw [hni] at hok
                  simp only [] at hok
                  have horphs : orphans = orphs := by
                    split at hok <;>
                      exact (congrArg Prod.snd (Except.ok.inj hok)).symm
                  rw [horphs]
                  have hmemEnum : (i, JVal.obj fs) ∈ pyEnum fig.data := by
                    have h0 := pyEnumFrom_of_get fig.data i 0
                      (JVal.obj fs) hmirror
                    simpa [pyEnum] using h0
                  have hu_orig : u ∈ origUids := by
                    obtain ⟨y, hy, hfy⟩ := mapME_ok_get mirrorUid fig.data
                      origUids hm i _ hmirror
                    have hyu : y = u := by
                      simp [mirrorUid, huid] at hfy
                      exact hfy.symm
                    subst hyu
                    exact List.getElem?_mem hy
                  have hin : u ∈ removeUidsOf origUids
                      (newData.map Trace.uid) :=
                    (mem_removeUidsOf _ _ u).mpr ⟨hu_orig, hnot⟩
                  rw [computeDeletions] at hcd
                  have hmem := foldME_deletionStep_mem
                    (removeUidsOf origUids (newData.map Trace.uid)) fig
                    (pyEnum fig.data) ([], []) (dis, orphs) hcd i fs u t
                    hmemEnum huid hin ht
                  rw [hclean, dupdate_nil_of_nodup fs hkeys] at hmem
                  exact hmem

/-- C5 witness: removing the second example trace ("b") from the example
figure orphans it with its last mirror data as its orphan snapshot. -/
theorem c5_witness :
    ∃ fig' orphans,
      figEx.setData [traceExA] = Except.ok (fig', orphans) ∧
      ({ uid := "b",
         orphanProps := [(Key.str "uid", JVal.s "b"),
                         (Key.str "x", JVal.i 2)],
         hasParent := false } : Trace) ∈ orphans ∧
      Trace.orphanView
        { uid := "b",
          orphanProps := [(Key.str "uid", JVal.s "b"),
                          (Key.str "x", JVal.i 2)],
          hasParent := false } =
        some [(Key.str "uid", JVal.s "b"), (Key.str "x", JVal.i 2)] := by
  have hok : figEx.setData [traceExA] = Except.ok
      ({ figEx with
          data := [mirrorExA]
          dataDefaults := [JVal.obj []]
          dataObjs := [traceExA]
          lastRelayoutMsgId := 1
          relayoutInProcess := true
          msgs := [Msg.deleteTraces [1] 1] },
        [{ uid := "b",
           orphanProps := [(Key.str "uid", JVal.s "b"),
                           (Key.str "x", JVal.i 2)],
           hasParent := false }]) := by decide
  have hres := c5_removed_trace_orphaned figEx [traceExA] 1
    [(Key.str "uid", JVal.s "b"), (Key.str "x", JVal.i 2)] "b" traceExB _ _
    hok (by decide) (by decide) (by decide) (by decide) (by decide)
    (by decide)
  exact ⟨_, _, hok, hres.1, hres.2⟩

/-- C4: the claim that a second application of the same restyle patch
never sends a restyle message fails on a leading-underscore patch key:
`_perform_restyle_dict` copies such a key into the outgoing restyle data
unconditionally (basedatatypes.py:357-360), so even a repeat application
that stores nothing produces a non-empty message and `restyle` sends it
again — here the message count goes 1 then 2 across two identical
applications. -/
theorem c4_counterexample :
    (figEx.restyle [("_x", JVal.i 1)] (some (TraceSel.many [0]))).map
        (fun f => f.msgs.length) = Except.ok 1 ∧
    ((figEx.restyle [("_x", JVal.i 1)] (some (TraceSel.many [0]))).bind
        (fun f =>
          f.restyle [("_x", JVal.i 1)] (some (TraceSel.many [0])))).map
        (fun f => f.msgs.length) = Except.ok 2 := by
  exact ⟨rfl, rfl⟩

/-- C4 (amended): restyle IS idempotent for ordinary patches — every key
a plain single-segment property name without a leading underscore, keys
distinct, every cycled value neither undefined nor null and list values
non-empty, and the selected trace indexes distinct, in range and naming
dict-valued mirror entries.  The first application yields a figure `fig1`
on which the identical second application is a strict no-op: it returns
`fig1` itself, so no stored trace data changes and no restyle message is
sent (`restyle` only sends when the outgoing restyle data is non-empty,
basedatatypes.py:343-346, and a repeat application changes no value,
lines 395-407). -/
theorem c4_restyle_idempotent (fig : Figure)
    (style : List (String × JVal)) (sel : Option TraceSel)
    (hkeys : ∀ kv ∈ style, strToDictPath kv.1 = [Key.str kv.1] ∧
      strStartsWith kv.1 "_" = false)
    (hnk : (style.map Prod.fst).Nodup)
    (hvals : ∀ kv ∈ style, restyleValueList kv.2 ≠ [] ∧
      ∀ v ∈ restyleValueList kv.2,
        v ≠ JVal.undefined ∧ v ≠ JVal.null)
    (hb : ∀ t ∈ traceSelToList fig sel, 0 ≤ t ∧
      t < (fig.data.length : Int) ∧
      ∃ fs, fig.data[t.toNat]? = some (JVal.obj fs))
    (hnd : (traceSelToList fig sel).Nodup) :
    ∃ fig1, fig.restyle style sel = Except.ok fig1 ∧
      fig1.restyle style sel = Except.ok fig1 := by
  obtain ⟨data1, rd1, hfold, hlen1, hpres1, hst1⟩ :=
    foldRestyle_stores (traceSelToList fig sel) hnd style fig.data []
      hkeys hnk hvals hb
  have hperf1 : performRestyleDict fig.data style
      (traceSelToList fig sel) = Except.ok (data1, rd1) := hfold
  refine ⟨if rd1 ≠ [] then
      sendRestyleMsg { fig with data := data1 } rd1
        (traceSelToList fig sel)
    else { fig with data := data1 }, ?_, ?_⟩
  · simp only [Figure.restyle, hperf1, Bind.bind, Except.bind]
    split <;> rfl
  · set fig1 : Figure := if rd1 ≠ [] then
        sendRestyleMsg { fig with data := data1 } rd1
          (traceSelToList fig sel)
      else { fig with data := data1 } with hfig1
    have hdata1 : fig1.data = data1 := by
      rw [hfig1]
      by_cases h : rd1 ≠ [] <;> simp [h, sendRestyleMsg]
    have hsel1 : traceSelToList fig1 sel = traceSelToList fig sel := by
      have hobjs : fig1.dataObjs = fig.dataObjs := by
        rw [hfig1]
        by_cases h : rd1 ≠ [] <;> simp [h, sendRestyleMsg]
      cases sel with
      | none => simp [traceSelToList, hobjs]
      | some ts => cases ts <;> rfl
    have hperf2 : performRestyleDict fig1.data style
        (traceSelToList fig1 sel) = Except.ok (fig1.data, []) := by
      rw [hsel1, hdata1]
      exact foldRestyle_noop (traceSelToList fig sel) style data1 []
        hkeys hvals
        (by
          intro t ht
          obtain ⟨t0, tlt, _⟩ := hb t ht
          exact ⟨t0, by rw [hlen1]; exact tlt⟩)
        hst1
    simp only [Figure.restyle, hperf2, Bind.bind, Except.bind]
    simp

/-- Concrete run of the amended idempotence: restyling opacity to 7 on
the first two traces of `figEx` twice returns the same figure both
times. -/
theorem c4_witness :
    ∃ fig1,
      figEx.restyle [("opacity", JVal.i 7)] (some (TraceSel.many [0, 1])) =
        Except.ok fig1 ∧
      fig1.restyle [("opacity", JVal.i 7)] (some (TraceSel.many [0, 1])) =
        Except.ok fig1 :=
  c4_restyle_idempotent figEx [("opacity", JVal.i 7)]
    (some (TraceSel.many [0, 1]))
    (by
      intro kv hkv
      simp at hkv
      subst hkv
      exact ⟨by decide, by decide⟩)
    (by decide)
    (by
      intro kv hkv
      simp at hkv
      subst hkv
      refine ⟨by decide, ?_⟩
      intro v hv
      simp [restyleValueList] at hv
      subst hv
      exact ⟨by decide, by decide⟩)
    (by
      intro t ht
      simp [traceSelToList] at ht
      rcases ht with h | h
      · subst h
        exact ⟨by decide, by decide, [(Key.str "uid", JVal.s "a"),
          (Key.str "x", JVal.i 1)], rfl⟩
      · subst h
        exact ⟨by decide, by decide, [(Key.str "uid", JVal.s "b"),
          (Key.str "x", JVal.i 2)], rfl⟩)
    (by decide)

end IPyPlotly
